import Mathlib

/-!
# Verification of the adaptive container compressor

Shallow embedding of the core of `adaptive_compressor.py`
(class `AdaptiveCompressor`) and proofs about it.

Conventions of the embedding:
* a byte string is a `List Nat` whose entries are the byte values;
* Python bitwise operations on bytes are rendered arithmetically:
  for a byte `b < 256`, `b & 0x7F` is `b % 128`, `b | 0x80` with `b < 128`
  is `128 + b`, `b >> k` is `b / 2 ^ k`, `b << k` is `b * 2 ^ k`, and
  `b & 0x80 == 0` is `b < 128`;
* the compression codecs (`compression_methods.py`, absent from the
  sources: only imported) and the MD5 digest (`hashlib`, an external
  library) are opaque dependencies, so they enter the embedding as
  function parameters (oracles).
-/

namespace AdaptiveCompressor

/-! ## Bit streams (`bitarray.frombytes`, MSB-first) -/

/-- The eight bits of a byte, most significant first
(`bitarray.frombytes` bit order). -/
def byteBits (b : Nat) : List Bool :=
  (List.range 8).map (fun k => b.testBit (7 - k))

/-- The bit stream of a byte string: each byte contributes its eight bits,
MSB first (`bits.frombytes(data_to_check)` in `_find_marker`). -/
def bitsOfBytes (data : List Nat) : List Bool :=
  (data.map byteBits).flatten

/-- The integer value of a bit string read MSB-first
(`int(window_str, 2)` in `_find_marker`). -/
def bitsVal (bits : List Bool) : Nat :=
  bits.foldl (fun acc b => 2 * acc + (if b then 1 else 0)) 0

/-! ## Variable-length integers
(`AdaptiveCompressor._encode_variable_length`,
`AdaptiveCompressor._read_variable_length_int`) -/

/-- Embeds `_encode_variable_length(buffer, value)`: appends the base-128
little-endian encoding of `value` to `buffer`.  Each `0x80 | (x & 0x7F)`
is rendered `128 + x % 128` and `(value >> k) & 0x7F` is
`value / 2 ^ k % 128`. -/
def encodeVariableLength (buffer : List Nat) (value : Nat) : List Nat :=
  if value < 128 then
    buffer ++ [value]
  else if value < 16384 then
    buffer ++ [128 + value % 128, value / 128 % 128]
  else if value < 2097152 then
    buffer ++ [128 + value % 128, 128 + value / 128 % 128, value / 16384 % 128]
  else
    buffer ++ [128 + value % 128, 128 + value / 128 % 128, 128 + value / 16384 % 128,
      value / 2097152 % 128]

/-- The `while position < len(data) and num_bytes < 4` loop of
`_read_variable_length_int`.  `fuel` is `4 - num_bytes`, so the loop is
entered with `fuel = 3`.  `value | (byte << shift)` is rendered
`value + byte * 2 ^ shift`: the accumulated `value` always occupies fewer
than `shift` bits, so the bitwise or is an addition. -/
def readVarLoop (data : List Nat) : Nat → Nat → Nat → Nat → Nat × Nat
  | 0, pos, value, _ => (value, pos)
  | fuel + 1, pos, value, shift =>
    if pos < data.length then
      if data.getD pos 0 < 128 then
        (value + data.getD pos 0 * 2 ^ shift, pos + 1)
      else
        readVarLoop data fuel (pos + 1) (value + data.getD pos 0 % 128 * 2 ^ shift) (shift + 7)
    else (value, pos)

/-- Embeds `_read_variable_length_int(data, position)`: reads a variable-length
integer, returning `(value, new_position)`. -/
def readVariableLengthInt (data : List Nat) (position : Nat) : Nat × Nat :=
  if position ≥ data.length then (0, position)
  else if data.getD position 0 < 128 then (data.getD position 0, position + 1)
  else readVarLoop data 3 (position + 1) (data.getD position 0 % 128) 7

/-- Number of bytes `_encode_variable_length` appends for `value` (also the
per-field count used by `_calculate_package_overhead`). -/
def variableLengthSize (value : Nat) : Nat :=
  if value < 128 then 1 else if value < 16384 then 2 else if value < 2097152 then 3 else 4

/-! ## Marker finder (`AdaptiveCompressor._find_marker`)

The running system delegates to the `MarkerFinder` class, whose module is
not among the sources; `_find_marker` itself carries a complete
implementation of the same search (the lines cited by the claims), and
that implementation is what is embedded here. -/

/-- Number of iterations of `for i in range(len(bits) - marker_length + 1)`
(empty when the bit string is shorter than the window). -/
def windowCount (L nbits : Nat) : Nat :=
  if L ≤ nbits then nbits - L + 1 else 0

/-- The multiset of `L`-bit window values observed in `bits` (the `found`
bitmap of `_find_marker`, as the list of marked values). -/
def seenPatterns (L : Nat) (bits : List Bool) : List Nat :=
  (List.range (windowCount L bits.length)).map (fun i => bitsVal ((bits.drop i).take L))

/-- The smallest value in `[0, 2^L)` whose pattern was not observed
(`for i in range(possible_patterns): if not found[i]`). -/
def findMissing (L : Nat) (bits : List Bool) : Option Nat :=
  (List.range (2 ^ L)).find? (fun v => decide (v ∉ seenPatterns L bits))

/-- The marker bytes built from the missing value: the `L` pattern bits
left-aligned and zero-padded to a whole byte (`L ≤ 8`) or to two bytes
(`9 ≤ L ≤ 16`). -/
def alignedMarkerBytes (v L : Nat) : List Nat :=
  if L ≤ 8 then [v * 2 ^ (8 - L)]
  else [v * 2 ^ (16 - L) / 256, v * 2 ^ (16 - L) % 256]

/-- The `for marker_length in range(1, 17)` search. -/
def tryLengths : List Nat → List Bool → Option (List Nat × Nat)
  | [], _ => none
  | L :: rest, bits =>
    match findMissing L bits with
    | some v => some (alignedMarkerBytes v L, L)
    | none => tryLengths rest bits

/-- Embeds `for i in range(0, len(data), step): sampled.extend(data[i:i+1])`
followed by truncation to `takeN` bytes.  Used both by the marker finder
and by the data profiler. -/
def strideSample (data : List Nat) (step takeN : Nat) : List Nat :=
  ((List.range ((data.length + step - 1) / step)).map (fun i => data.getD (i * step) 0)).take takeN

/-- The sampling decision of `_find_marker`: sample only when `sample_size`
is truthy and the data is longer than it. -/
def sampleData (data : List Nat) (sampleSize : Nat) : List Nat :=
  if sampleSize ≠ 0 ∧ data.length > sampleSize then
    strideSample data (data.length / sampleSize) sampleSize
  else data

/-- Embeds `_find_marker(file_data, sample_size)`: returns `(marker_bytes,
marker_length)`; falls back to the fixed 32-bit pattern
`0xFFFF0000` when every length up to 16 is exhausted. -/
def findMarker (fileData : List Nat) (sampleSize : Nat) : List Nat × Nat :=
  match tryLengths (List.range' 1 16) (bitsOfBytes (sampleData fileData sampleSize)) with
  | some r => r
  | none => ([0xFF, 0xFF, 0x00, 0x00], 32)

/-- Embeds `_init_marker`: the properly aligned marker bytes
(`marker_bytes_aligned`): the first `L` bits of the stored marker bytes,
zero-padded to a whole number of bytes. -/
def initMarkerAligned (markerBytes : List Nat) (markerLength : Nat) : List Nat :=
  let k := (markerLength + 7) / 8
  let pad := 8 * k - markerLength
  markerBytes.take (k - 1) ++ [markerBytes.getD (k - 1) 0 / 2 ^ pad * 2 ^ pad]

/-! ## File header (`_create_header`, `_update_header_compressed_size`,
`_parse_header`) -/

/-- Embeds `struct.pack` of a `u32` little-endian. -/
def u32le (n : Nat) : List Nat :=
  [n % 256, n / 256 % 256, n / 65536 % 256, n / 16777216 % 256]

/-- Embeds `struct.pack` of a `u64` little-endian. -/
def u64le (n : Nat) : List Nat :=
  [n % 256, n / 256 % 256, n / 65536 % 256, n / 16777216 % 256,
   n / 4294967296 % 256, n / 1099511627776 % 256, n / 281474976710656 % 256,
   n / 72057594037927936 % 256]

/-- Embeds `struct.unpack` of a `u32` little-endian at `pos`. -/
def readU32le (data : List Nat) (pos : Nat) : Nat :=
  data.getD pos 0 + 256 * data.getD (pos + 1) 0 + 65536 * data.getD (pos + 2) 0
    + 16777216 * data.getD (pos + 3) 0

/-- Embeds `struct.unpack` of a `u64` little-endian at `pos`. -/
def readU64le (data : List Nat) (pos : Nat) : Nat :=
  data.getD pos 0 + 256 * data.getD (pos + 1) 0 + 65536 * data.getD (pos + 2) 0
    + 16777216 * data.getD (pos + 3) 0 + 4294967296 * data.getD (pos + 4) 0
    + 1099511627776 * data.getD (pos + 5) 0 + 281474976710656 * data.getD (pos + 6) 0
    + 72057594037927936 * data.getD (pos + 7) 0

/-- In-place slice assignment `l[i:i+len(repl)] = repl`. -/
def setSlice (l : List Nat) (i : Nat) (repl : List Nat) : List Nat :=
  l.take i ++ repl ++ l.drop (i + repl.length)

/-- Embeds `AdaptiveCompressor.MAGIC_NUMBER` (ASCII AMBC). -/
def MAGIC_NUMBER : List Nat := [0x41, 0x4D, 0x42, 0x43]

/-- Embeds `AdaptiveCompressor.FORMAT_VERSION`. -/
def FORMAT_VERSION : Nat := 2

/-- Embeds `_create_header(marker_bytes, marker_length, checksum, original_size)`:
magic, version, header-size placeholder (patched in place at offset 5),
marker length and bytes, checksum type 1, checksum, original size,
compressed-size placeholder. -/
def createHeader (markerBytes : List Nat) (markerLength : Nat) (checksum : List Nat)
    (originalSize : Nat) : List Nat :=
  let header := MAGIC_NUMBER ++ [FORMAT_VERSION] ++ [0, 0, 0, 0] ++ [markerLength]
    ++ markerBytes ++ [1] ++ checksum ++ u64le originalSize ++ [0, 0, 0, 0, 0, 0, 0, 0]
  setSlice header 5 (u32le header.length)

/-- Embeds `_update_header_compressed_size`: overwrite the last 8 header bytes. -/
def updateHeaderCompressedSize (header : List Nat) (compressedSize : Nat) : List Nat :=
  header.take (header.length - 8) ++ u64le compressedSize

/-- The dictionary `_parse_header` returns. -/
structure HeaderInfo where
  format_version : Nat
  header_size : Nat
  marker_length : Nat
  marker_bytes : List Nat
  checksum_type : Nat
  checksum : List Nat
  original_size : Nat
  compressed_size : Nat
deriving Repr, DecidableEq

/-- The `ValueError`s `_parse_header` can raise. -/
inductive ParseError where
  | invalidMagic
  | unsupportedVersion
deriving Repr, DecidableEq

/-- Embeds `_parse_header(compressed_data)`. -/
def parseHeader (data : List Nat) : Except ParseError HeaderInfo :=
  if data.take 4 ≠ MAGIC_NUMBER then .error .invalidMagic
  else if data.getD 4 0 > FORMAT_VERSION then .error .unsupportedVersion
  else
    let markerLength := data.getD 9 0
    let markerBytesSize := (markerLength + 7) / 8
    let checksumType := data.getD (10 + markerBytesSize) 0
    let checksumSize := if checksumType == 1 then 16 else 0
    let originalSizePos := 11 + markerBytesSize + checksumSize
    .ok { format_version := data.getD 4 0
          header_size := readU32le data 5
          marker_length := markerLength
          marker_bytes := (data.drop 10).take markerBytesSize
          checksum_type := checksumType
          checksum := (data.drop (11 + markerBytesSize)).take checksumSize
          original_size := readU64le data originalSizePos
          compressed_size := readU64le data (originalSizePos + 8) }

/-! ## Chunk packages (`_create_package`, `_create_end_package`,
`_calculate_package_overhead`, `_process_chunk`) -/

/-- Embeds `_create_package(package_type, data, original_length)`: marker, one
type byte, the two variable-length fields, then the payload. -/
def createPackage (markerAligned : List Nat) (packageType : Nat) (data : List Nat)
    (originalLength : Nat) : List Nat :=
  encodeVariableLength (encodeVariableLength (markerAligned ++ [packageType]) originalLength)
    data.length ++ data

/-- Embeds `_create_end_package()`: marker followed by the single type byte 0. -/
def createEndPackage (markerAligned : List Nat) : List Nat :=
  markerAligned ++ [0]

/-- Embeds `_calculate_package_overhead(original_length)`: marker bytes, one type
byte, and both variable-length fields (the data-length field is estimated
with the original length). -/
def calculatePackageOverhead (markerAligned : List Nat) (originalLength : Nat) : Nat :=
  markerAligned.length + 1 + variableLengthSize originalLength + variableLengthSize originalLength

/-- The per-chunk `stats` dictionary of `_process_chunk`. -/
structure PackedChunkStats where
  compressed : Bool
  method_id : Nat
  original_size : Nat
  compressed_size : Nat
  overhead : Nat
  bytes_saved : Nat
deriving Repr, DecidableEq

/-- Embeds `_process_chunk(chunk_data, method_id, ...)`.  `compressFn id bytes`
is the opaque `method.compress` (none models a raised exception) and
`methodKnown` is membership in `method_lookup`.  Raw chunks are returned
as the bare slice, without any package framing. -/
def processChunk (compressFn : Nat → List Nat → Option (List Nat)) (methodKnown : Nat → Bool)
    (markerAligned : List Nat) (chunkData : List Nat) (methodId : Nat) :
    List Nat × PackedChunkStats :=
  if methodId == 255 || !methodKnown methodId then
    (chunkData, { compressed := false, method_id := 255, original_size := chunkData.length,
                  compressed_size := chunkData.length, overhead := 0, bytes_saved := 0 })
  else
    match compressFn methodId chunkData with
    | none =>
      (chunkData, { compressed := false, method_id := 255, original_size := chunkData.length,
                    compressed_size := chunkData.length, overhead := 0, bytes_saved := 0 })
    | some compressedData =>
      let overhead := calculatePackageOverhead markerAligned chunkData.length
      if compressedData.length + overhead < chunkData.length then
        (createPackage markerAligned methodId compressedData chunkData.length,
         { compressed := true, method_id := methodId, original_size := chunkData.length,
           compressed_size := compressedData.length, overhead := overhead,
           bytes_saved := chunkData.length - (compressedData.length + overhead) })
      else
        (chunkData, { compressed := false, method_id := 255, original_size := chunkData.length,
                      compressed_size := chunkData.length, overhead := 0, bytes_saved := 0 })

/-! ## Statistics and the compression pipeline (`_adaptive_compress`,
`_compress_chunks_sequential`, `compress`) -/

/-- The `chunk_stats` dictionary. -/
structure ChunkStatsAcc where
  total_chunks : Nat
  compressed_chunks : Nat
  raw_chunks : Nat
  method_usage : Nat → Nat
  bytes_saved : Nat
  original_size : Nat
  compressed_size_without_overhead : Nat
  overhead_bytes : Nat
  header_size : Nat

/-- The initial `chunk_stats` of `_adaptive_compress` (every usage counter
starts at 0; `header_size` is only added later by `compress`). -/
def initChunkStats (originalSize : Nat) : ChunkStatsAcc :=
  { total_chunks := 0, compressed_chunks := 0, raw_chunks := 0, method_usage := fun _ => 0,
    bytes_saved := 0, original_size := originalSize, compressed_size_without_overhead := 0,
    overhead_bytes := 0, header_size := 0 }

/-- The per-chunk statistics update of `_compress_chunks_sequential`. -/
def updateChunkStats (acc : ChunkStatsAcc) (st : PackedChunkStats) : ChunkStatsAcc :=
  if st.compressed then
    { acc with
      total_chunks := acc.total_chunks + 1
      compressed_chunks := acc.compressed_chunks + 1
      method_usage := fun id =>
        if id = st.method_id then acc.method_usage id + 1 else acc.method_usage id
      compressed_size_without_overhead :=
        acc.compressed_size_without_overhead + st.compressed_size
      overhead_bytes := acc.overhead_bytes + st.overhead
      bytes_saved := acc.bytes_saved + st.bytes_saved }
  else
    { acc with total_chunks := acc.total_chunks + 1, raw_chunks := acc.raw_chunks + 1 }

/-- Embeds `_compress_chunks_sequential(file_data, chunks, ...)`: processes the
planned `(position, size, method_id)` chunks in order, returning the
package list and the updated statistics. -/
def compressChunksSequential (compressFn : Nat → List Nat → Option (List Nat))
    (methodKnown : Nat → Bool) (markerAligned fileData : List Nat) :
    List (Nat × Nat × Nat) → ChunkStatsAcc → List (List Nat) × ChunkStatsAcc
  | [], acc => ([], acc)
  | (position, size, methodId) :: rest, acc =>
    let r := processChunk compressFn methodKnown markerAligned
      ((fileData.drop position).take size) methodId
    let next := compressChunksSequential compressFn methodKnown markerAligned fileData rest
      (updateChunkStats acc r.2)
    (r.1 :: next.1, next.2)

/-- The first pass of `_adaptive_compress`: the `while position <
len(file_data)` planning loop.  `determine pos` is the opaque
`_determine_optimal_chunk(file_data, pos)` (its codec scoring compares
floating-point scores, so it enters as an oracle).  The source would loop
forever on a zero-size chunk; the embedding stops there instead. -/
def planChunks (determine : Nat → Nat × Nat) (totalLen pos : Nat) : List (Nat × Nat × Nat) :=
  if h : pos < totalLen then
    if h0 : (determine pos).1 = 0 then []
    else (pos, (determine pos).1, (determine pos).2) :: planChunks determine totalLen (pos + (determine pos).1)
  else []
termination_by totalLen - pos
decreasing_by omega

/-- Embeds `_adaptive_compress(file_data, ...)`: plan, process the chunks, append
the end package, and account for its overhead. -/
def adaptiveCompress (compressFn : Nat → List Nat → Option (List Nat))
    (methodKnown : Nat → Bool) (determine : Nat → Nat × Nat)
    (fileData markerAligned : List Nat) : List Nat × ChunkStatsAcc :=
  let plan := planChunks determine fileData.length 0
  let r := compressChunksSequential compressFn methodKnown markerAligned fileData plan
    (initChunkStats fileData.length)
  let endPackage := createEndPackage markerAligned
  (r.1.flatten ++ endPackage,
   { r.2 with overhead_bytes := r.2.overhead_bytes + endPackage.length })

/-- Embeds `compress(input_file, output_file)` on the in-memory bytes: checksum,
marker, header, adaptive compression, header patch, and the final
statistics updates.  Returns the archive bytes and the `chunk_stats`.
`md5` is the opaque `hashlib.md5(...).digest()`. -/
def compressFile (md5 : List Nat → List Nat) (compressFn : Nat → List Nat → Option (List Nat))
    (methodKnown : Nat → Bool) (determine : Nat → Nat × Nat) (sampleSize : Nat)
    (fileData : List Nat) : List Nat × ChunkStatsAcc :=
  let checksum := md5 fileData
  let m := findMarker fileData sampleSize
  let markerAligned := initMarkerAligned m.1 m.2
  let header0 := createHeader m.1 m.2 checksum fileData.length
  let r := adaptiveCompress compressFn methodKnown determine fileData markerAligned
  let header := updateHeaderCompressedSize header0 r.1.length
  (header ++ r.1,
   { r.2 with
      overhead_bytes := r.2.overhead_bytes + header0.length
      header_size := header0.length })

/-! ## Decompression (`_adaptive_decompress`, `decompress`) -/

/-- The `for i in range(pos, len(compressed_data) - marker_size + 1)`
marker scan of `_adaptive_decompress`. -/
def findMarkerPosFrom (data markerAligned : List Nat) (pos : Nat) : Option Nat :=
  (List.range' pos (data.length + 1 - markerAligned.length - pos)).find?
    (fun i => (data.drop i).take markerAligned.length == markerAligned)

/-- The `while pos < len(compressed_data)` loop of `_adaptive_decompress`.
`decOracle id payload origLen` is the opaque `method.decompress` for a
registered codec (none models both an unknown method and a raised
exception: each path appends `original_length` zero bytes). -/
def adaptiveDecompressLoop (decOracle : Nat → List Nat → Nat → Option (List Nat))
    (markerAligned data : List Nat) (pos : Nat) (acc : List Nat) : List Nat :=
  if hpos : pos < data.length then
    match hq : findMarkerPosFrom data markerAligned pos with
    | none => acc ++ data.drop pos
    | some q =>
      let acc1 := acc ++ (data.drop pos).take (q - pos)
      if q + markerAligned.length ≥ data.length then acc1
      else
        let packageType := data.getD (q + markerAligned.length) 0
        if packageType = 0 then acc1
        else if ¬ (1 ≤ packageType ∧ packageType ≤ 11 ∨ packageType = 255) then
          adaptiveDecompressLoop decOracle markerAligned data (q + markerAligned.length + 1)
            (acc1 ++ markerAligned ++ [packageType])
        else
          if q + markerAligned.length + 1 ≥ data.length then acc1
          else
            let r1 := readVariableLengthInt data (q + markerAligned.length + 1)
            if r1.2 ≥ data.length then acc1
            else
              let r2 := readVariableLengthInt data r1.2
              if r2.2 + r2.1 > data.length then acc1 ++ data.drop r2.2
              else
                let payload := (data.drop r2.2).take r2.1
                let chunk := match decOracle packageType payload r1.1 with
                  | some out => out
                  | none => List.replicate r1.1 0
                adaptiveDecompressLoop decOracle markerAligned data (r2.2 + r2.1) (acc1 ++ chunk)
  else acc
termination_by data.length - pos
decreasing_by
· have hmem := List.mem_of_find?_eq_some hq
  rw [List.mem_range'] at hmem
  obtain ⟨i, hi, hqe⟩ := hmem
  omega
· have hmem := List.mem_of_find?_eq_some hq
  rw [List.mem_range'] at hmem
  obtain ⟨i, hi, hqe⟩ := hmem
  have mono : ∀ fuel p v s, p ≤ (readVarLoop data fuel p v s).2 := by
    intro fuel
    induction fuel with
    | zero => intro p v s; exact Nat.le_refl _
    | succ f ih =>
      intro p v s
      simp only [readVarLoop]
      split
      · split
        · exact Nat.le_succ p
        · exact Nat.le_trans (Nat.le_succ p) (ih (p + 1) _ _)
      · exact Nat.le_refl p
  have mono2 : ∀ p, p ≤ (readVariableLengthInt data p).2 := by
    intro p
    unfold readVariableLengthInt
    split
    · exact Nat.le_refl p
    · split
      · exact Nat.le_succ p
      · exact Nat.le_trans (Nat.le_succ p) (mono 3 (p + 1) _ _)
  have hm1 := mono2 (q + markerAligned.length + 1)
  have hm2 := mono2 (readVariableLengthInt data (q + markerAligned.length + 1)).2
  omega

/-- Embeds `_adaptive_decompress(compressed_data, ..., original_size)`: run the
loop, then pad with zeros or truncate to the expected size. -/
def adaptiveDecompress (decOracle : Nat → List Nat → Nat → Option (List Nat))
    (markerAligned data : List Nat) (originalSize : Nat) : List Nat :=
  let d := adaptiveDecompressLoop decOracle markerAligned data 0 []
  if d.length ≠ originalSize then
    if d.length < originalSize then d ++ List.replicate (originalSize - d.length) 0
    else d.take originalSize
  else d

/-- Fatal errors of `decompress` (both are `ValueError`s in the source). -/
inductive DecompressError where
  | invalidFormat (e : ParseError)
  | checksumMismatch
deriving Repr, DecidableEq

/-- Embeds `decompress(input_file, output_file)` on in-memory bytes.  The first
component is the content written to the output file (`none` when nothing
was written); the second is the outcome.  The write happens before the
checksum is verified, exactly as in the source. -/
def decompressFile (md5 : List Nat → List Nat)
    (decOracle : Nat → List Nat → Nat → Option (List Nat)) (archive : List Nat) :
    Option (List Nat) × Except DecompressError Unit :=
  match parseHeader archive with
  | .error e => (none, .error (.invalidFormat e))
  | .ok hi =>
    let markerAligned := initMarkerAligned hi.marker_bytes hi.marker_length
    let d := adaptiveDecompress decOracle markerAligned (archive.drop hi.header_size)
      hi.original_size
    if md5 d ≠ hi.checksum then (some d, .error .checksumMismatch)
    else (some d, .ok ())

/-! ## Data profiler (`_calculate_repetition_score`) -/

/-- The `for i in range(len(data) - 1)` adjacent-repeat count. -/
def repeatsCount (data : List Nat) : Nat :=
  (List.range (data.length - 1)).countP (fun i => data.getD i 0 == data.getD (i + 1) 0)

/-- Embeds `_calculate_repetition_score(data)`: 0 for fewer than 4 bytes; the data
is stride-sampled down to 1000 bytes when longer; otherwise the fraction
of adjacent equal pairs.  The Python float division is rendered in `ℚ`. -/
def calculateRepetitionScore (data : List Nat) : ℚ :=
  if data.length < 4 then 0
  else
    let d := if data.length > 1000 then strideSample data (data.length / 1000) 1000 else data
    (repeatsCount d : ℚ) / ((d.length : ℚ) - 1)

/-! ## Statement-side vocabulary (from the wording of the claims) -/

/-- The number of adjacent positions `i` with `b[i] == b[i+1]` (wording of
claim C9). -/
def adjacentEqualCount (b : List Nat) : Nat :=
  (b.zip b.tail).countP (fun p => p.1 == p.2)

/-- Whether `m` occurs as a contiguous substring of `l` (wording of claim
C7). -/
def occursInBytes (m l : List Nat) : Bool :=
  (List.range (l.length + 1)).any (fun i => (l.drop i).take m.length == m)

/-- Total number of bytes emitted for raw (unframed) chunks by
`_compress_chunks_sequential` over a plan (wording of the amended claim
C8). -/
def rawBytesTotal (compressFn : Nat → List Nat → Option (List Nat)) (methodKnown : Nat → Bool)
    (markerAligned fileData : List Nat) : List (Nat × Nat × Nat) → Nat
  | [] => 0
  | (position, size, methodId) :: rest =>
    let r := processChunk compressFn methodKnown markerAligned
      ((fileData.drop position).take size) methodId
    (if r.2.compressed then 0 else r.1.length)
      + rawBytesTotal compressFn methodKnown markerAligned fileData rest

/-- Sum of the `method_usage` counters over the registered codec ids
(`sum(method_usage.values())`). -/
def usageSum (registry : List Nat) (usage : Nat → Nat) : Nat :=
  (registry.map usage).sum

/-- The amount by which `_calculate_package_overhead` over-states the
compressed-length field of each effectively compressed chunk: the overhead
counter sizes that field by the original length while the emitted package
sizes it by the payload length (wording of the amended claim C8). -/
def overheadSlack (compressFn : Nat → List Nat → Option (List Nat)) (methodKnown : Nat → Bool)
    (markerAligned fileData : List Nat) : List (Nat × Nat × Nat) → Nat
  | [] => 0
  | (position, size, methodId) :: rest =>
    let r := processChunk compressFn methodKnown markerAligned
      ((fileData.drop position).take size) methodId
    (if r.2.compressed then
        variableLengthSize r.2.original_size - variableLengthSize r.2.compressed_size
      else 0)
      + overheadSlack compressFn methodKnown markerAligned fileData rest

end AdaptiveCompressor

namespace AdaptiveCompressor

/-! ## Helper lemmas -/

theorem encodeVariableLength_eq_append (buffer : List Nat) (value : Nat) :
    encodeVariableLength buffer value = buffer ++ encodeVariableLength [] value := by
  unfold encodeVariableLength
  split_ifs <;> simp

theorem length_encodeVariableLength_nil (value : Nat) :
    (encodeVariableLength [] value).length = variableLengthSize value := by
  unfold encodeVariableLength variableLengthSize
  split_ifs <;> simp

theorem getD_middle (pre l tail : List Nat) (k : Nat) (hk : k < l.length) :
    (pre ++ l ++ tail).getD (pre.length + k) 0 = l.getD k 0 := by
  rw [List.append_assoc,
    List.getD_append_right _ _ _ _ (Nat.le_add_right _ _)]
  simp only [Nat.add_sub_cancel_left]
  exact List.getD_append _ _ _ _ hk

/-- Core round-trip for variable-length integers: reading back what the
encoder wrote, at the position where it was written. -/
theorem readVar_encode (pre tail : List Nat) (n : Nat) (h : n < 2 ^ 28) :
    readVariableLengthInt (pre ++ encodeVariableLength [] n ++ tail) pre.length
      = (n, pre.length + variableLengthSize n) := by
  have hlen : ∀ l t : List Nat, (pre ++ l ++ t).length = pre.length + l.length + t.length := by
    intro l t
    simp only [List.length_append]
  have hb0 : ∀ l t : List Nat, 0 < l.length → (pre ++ l ++ t).getD pre.length 0 = l.getD 0 0 := by
    intro l t hl
    have := getD_middle pre l t 0 hl
    simpa using this
  rcases Nat.lt_or_ge n 128 with h1 | h1
  · have henc : encodeVariableLength [] n = [n] := by
      unfold encodeVariableLength; rw [if_pos h1]; simp
    rw [henc]
    unfold readVariableLengthInt
    rw [if_neg (by rw [hlen]; simp; omega)]
    rw [hb0 _ _ (by simp)]
    simp only [List.getD_cons_zero]
    rw [if_pos h1]
    unfold variableLengthSize
    rw [if_pos h1]
  · rcases Nat.lt_or_ge n 16384 with h2 | h2
    · have henc : encodeVariableLength [] n = [128 + n % 128, n / 128 % 128] := by
        unfold encodeVariableLength
        rw [if_neg (by omega), if_pos h2]; simp
      rw [henc]
      unfold readVariableLengthInt
      rw [if_neg (by rw [hlen]; simp; omega)]
      rw [hb0 _ _ (by simp)]
      simp only [List.getD_cons_zero]
      rw [if_neg (by omega)]
      unfold readVarLoop
      rw [if_pos (by rw [hlen]; simp; omega)]
      have hb1 : (pre ++ [128 + n % 128, n / 128 % 128] ++ tail).getD (pre.length + 1) 0
          = n / 128 % 128 := by
        rw [getD_middle pre _ tail 1 (by simp)]; simp
      rw [hb1]
      rw [if_pos (by omega)]
      unfold variableLengthSize
      rw [if_neg (by omega), if_pos h2]
      refine Prod.ext ?_ rfl
      show (128 + n % 128) % 128 + n / 128 % 128 * 2 ^ 7 = n
      have : (2 : Nat) ^ 7 = 128 := by norm_num
      rw [this]; omega
    · rcases Nat.lt_or_ge n 2097152 with h3 | h3
      · have henc : encodeVariableLength [] n
            = [128 + n % 128, 128 + n / 128 % 128, n / 16384 % 128] := by
          unfold encodeVariableLength
          rw [if_neg (by omega), if_neg (by omega), if_pos h3]; simp
        rw [henc]
        unfold readVariableLengthInt
        rw [if_neg (by rw [hlen]; simp; omega)]
        rw [hb0 _ _ (by simp)]
        simp only [List.getD_cons_zero]
        rw [if_neg (by omega)]
        unfold readVarLoop
        rw [if_pos (by rw [hlen]; simp; omega)]
        have hb1 : (pre ++ [128 + n % 128, 128 + n / 128 % 128, n / 16384 % 128] ++ tail).getD
            (pre.length + 1) 0 = 128 + n / 128 % 128 := by
          rw [getD_middle pre _ tail 1 (by simp)]; simp
        rw [hb1]
        rw [if_neg (by omega)]
        unfold readVarLoop
        have hp2 : pre.length + 1 + 1 = pre.length + 2 := by omega
        rw [if_pos (by rw [hlen]; simp; omega)]
        have hb2 : (pre ++ [128 + n % 128, 128 + n / 128 % 128, n / 16384 % 128] ++ tail).getD
            (pre.length + 1 + 1) 0 = n / 16384 % 128 := by
          rw [hp2, getD_middle pre _ tail 2 (by simp)]; simp
        rw [hb2]
        rw [if_pos (by omega)]
        unfold variableLengthSize
        rw [if_neg (by omega), if_neg (by omega), if_pos h3]
        refine Prod.ext ?_ (by show pre.length + 1 + 1 + 1 = pre.length + 3; omega)
        show (128 + n % 128) % 128 + (128 + n / 128 % 128) % 128 * 2 ^ 7
            + n / 16384 % 128 * 2 ^ (7 + 7) = n
        have e1 : (2 : Nat) ^ 7 = 128 := by norm_num
        have e2 : (2 : Nat) ^ (7 + 7) = 16384 := by norm_num
        rw [e1, e2]; omega
      · have henc : encodeVariableLength [] n
            = [128 + n % 128, 128 + n / 128 % 128, 128 + n / 16384 % 128,
               n / 2097152 % 128] := by
          unfold encodeVariableLength
          rw [if_neg (by omega), if_neg (by omega), if_neg (by omega)]; simp
        rw [henc]
        unfold readVariableLengthInt
        rw [if_neg (by rw [hlen]; simp; omega)]
        rw [hb0 _ _ (by simp)]
        simp only [List.getD_cons_zero]
        rw [if_neg (by omega)]
        unfold readVarLoop
        rw [if_pos (by rw [hlen]; simp; omega)]
        have hb1 : (pre ++ [128 + n % 128, 128 + n / 128 % 128, 128 + n / 16384 % 128,
            n / 2097152 % 128] ++ tail).getD (pre.length + 1) 0 = 128 + n / 128 % 128 := by
          rw [getD_middle pre _ tail 1 (by simp)]; simp
        rw [hb1]
        rw [if_neg (by omega)]
        unfold readVarLoop
        rw [if_pos (by rw [hlen]; simp; omega)]
        have hb2 : (pre ++ [128 + n % 128, 128 + n / 128 % 128, 128 + n / 16384 % 128,
            n / 2097152 % 128] ++ tail).getD (pre.length + 1 + 1) 0 = 128 + n / 16384 % 128 := by
          rw [show pre.length + 1 + 1 = pre.length + 2 by omega,
            getD_middle pre _ tail 2 (by simp)]
          simp
        rw [hb2]
        rw [if_neg (by omega)]
        unfold readVarLoop
        rw [if_pos (by rw [hlen]; simp; omega)]
        have hb3 : (pre ++ [128 + n % 128, 128 + n / 128 % 128, 128 + n / 16384 % 128,
            n / 2097152 % 128] ++ tail).getD (pre.length + 1 + 1 + 1) 0
            = n / 2097152 % 128 := by
          rw [show pre.length + 1 + 1 + 1 = pre.length + 3 by omega,
            getD_middle pre _ tail 3 (by simp)]
          simp
        rw [hb3]
        rw [if_pos (by omega)]
        unfold variableLengthSize
        rw [if_neg (by omega), if_neg (by omega), if_neg (by omega)]
        refine Prod.ext ?_ (by show pre.length + 1 + 1 + 1 + 1 = pre.length + 4; omega)
        show (128 + n % 128) % 128 + (128 + n / 128 % 128) % 128 * 2 ^ 7
            + (128 + n / 16384 % 128) % 128 * 2 ^ (7 + 7)
            + n / 2097152 % 128 * 2 ^ (7 + 7 + 7) = n
        have e1 : (2 : Nat) ^ 7 = 128 := by norm_num
        have e2 : (2 : Nat) ^ (7 + 7) = 16384 := by norm_num
        have e3 : (2 : Nat) ^ (7 + 7 + 7) = 2097152 := by norm_num
        rw [e1, e2, e3]
        omega

/-- C10: for every `n < 2^28`, `_encode_variable_length` appends exactly
1, 2, 3 or 4 bytes according as `n < 128`, `n < 16384`, `n < 2097152` or
`n ≥ 2097152`, and `_read_variable_length_int` at that position returns
`(n, position + that byte count)`. -/
theorem C10_variable_length_roundtrip (buffer tail : List Nat) (n : Nat) (h : n < 2 ^ 28) :
    (encodeVariableLength buffer n).length
      = buffer.length
        + (if n < 128 then 1 else if n < 16384 then 2 else if n < 2097152 then 3 else 4)
    ∧ readVariableLengthInt (encodeVariableLength buffer n ++ tail) buffer.length
      = (n, buffer.length
            + (if n < 128 then 1 else if n < 16384 then 2 else if n < 2097152 then 3 else 4)) := by
  have hsz : (if n < 128 then 1 else if n < 16384 then 2 else if n < 2097152 then 3 else 4)
      = variableLengthSize n := rfl
  rw [hsz, encodeVariableLength_eq_append]
  constructor
  · rw [List.length_append, length_encodeVariableLength_nil]
  · exact readVar_encode buffer tail n h

/-! ## Claim C2: chunk framing -/

/-- C2 counterexample: the encoder does not use the fixed-width frame.  A
package for codec 1 with payload `[5]` and original length 3 is
`marker ++ [1, 3, 1, 5]` — 5 bytes — while the claimed layout (1-byte
codec id, 1-byte k_value, 2-byte used_bytes, 4-byte original_length,
4-byte compressed_length) would make it 14 bytes long. -/
theorem C2_fixed_width_counterexample :
    createPackage [0xC0] 1 [5] 3 = [0xC0, 1, 3, 1, 5]
    ∧ (createPackage [0xC0] 1 [5] 3).length
        ≠ [0xC0].length + 1 + 1 + 2 + 4 + 4 + [5].length := by
  decide

/-- C2 (amended): every non-terminator package the encoder emits consists
of the aligned marker bytes, a 1-byte codec id, a variable-length (1–4
byte, base-128) original_length, a variable-length compressed_length, and
exactly compressed_length payload bytes; reading the two variable-length
fields back at their positions returns the written values. -/
theorem C2_package_frame (m payload : List Nat) (t origLen : Nat)
    (h1 : origLen < 2 ^ 28) (h2 : payload.length < 2 ^ 28) :
    (createPackage m t payload origLen).take m.length = m
    ∧ (createPackage m t payload origLen).getD m.length 0 = t
    ∧ readVariableLengthInt (createPackage m t payload origLen) (m.length + 1)
        = (origLen, m.length + 1 + variableLengthSize origLen)
    ∧ readVariableLengthInt (createPackage m t payload origLen)
          (m.length + 1 + variableLengthSize origLen)
        = (payload.length,
           m.length + 1 + variableLengthSize origLen + variableLengthSize payload.length)
    ∧ (createPackage m t payload origLen).drop
          (m.length + 1 + variableLengthSize origLen + variableLengthSize payload.length)
        = payload
    ∧ (createPackage m t payload origLen).length
        = m.length + 1 + variableLengthSize origLen + variableLengthSize payload.length
          + payload.length := by
  have hrw : createPackage m t payload origLen
      = (m ++ [t]) ++ encodeVariableLength [] origLen
        ++ (encodeVariableLength [] payload.length ++ payload) := by
    unfold createPackage
    rw [encodeVariableLength_eq_append (encodeVariableLength (m ++ [t]) origLen),
      encodeVariableLength_eq_append (m ++ [t])]
    simp [List.append_assoc]
  have hlen1 : (m ++ [t]).length = m.length + 1 := by simp
  refine ⟨?_, ?_, ?_, ?_, ?_, ?_⟩
  · rw [hrw]
    rw [List.append_assoc, List.append_assoc]
    have : m.length ≤ (m ++ [t]).length := by simp
    rw [List.take_append_of_le_length (by simp)]
    exact List.take_length m
  · rw [hrw]
    have h0 : (m ++ ([t] ++ (encodeVariableLength [] origLen
        ++ (encodeVariableLength [] payload.length ++ payload)))).getD (m.length + 0) 0
        = ([t] ++ (encodeVariableLength [] origLen
            ++ (encodeVariableLength [] payload.length ++ payload))).getD 0 0 := by
      have := getD_middle m ([t] ++ (encodeVariableLength [] origLen
        ++ (encodeVariableLength [] payload.length ++ payload))) [] 0 (by simp)
      simpa using this
    simp only [List.append_assoc]
    simpa using h0
  · have := readVar_encode (m ++ [t])
      (encodeVariableLength [] payload.length ++ payload) origLen h1
    rw [hlen1] at this
    rw [hrw]
    rw [this]
  · have hrw2 : createPackage m t payload origLen
        = ((m ++ [t]) ++ encodeVariableLength [] origLen)
          ++ encodeVariableLength [] payload.length ++ payload := by
      rw [hrw]; simp [List.append_assoc]
    have := readVar_encode ((m ++ [t]) ++ encodeVariableLength [] origLen) payload
      payload.length h2
    rw [List.length_append, hlen1, length_encodeVariableLength_nil] at this
    rw [hrw2, this]
  · have hrw2 : createPackage m t payload origLen
        = (((m ++ [t]) ++ encodeVariableLength [] origLen)
            ++ encodeVariableLength [] payload.length) ++ payload := by
      rw [hrw]; simp [List.append_assoc]
    rw [hrw2]
    have hl : (((m ++ [t]) ++ encodeVariableLength [] origLen)
        ++ encodeVariableLength [] payload.length).length
        = m.length + 1 + variableLengthSize origLen + variableLengthSize payload.length := by
      simp [length_encodeVariableLength_nil]
      omega
    rw [← hl, List.drop_left]
  · rw [hrw]
    simp [length_encodeVariableLength_nil]
    omega

/-- Witness for the amended C2 frame shape. -/
theorem C2_package_frame_witness :
    (3 < 2 ^ 28 ∧ ([5] : List Nat).length < 2 ^ 28)
    ∧ ((createPackage [0xC0] 1 [5] 3).take [0xC0].length = [0xC0]
      ∧ (createPackage [0xC0] 1 [5] 3).getD [0xC0].length 0 = 1
      ∧ readVariableLengthInt (createPackage [0xC0] 1 [5] 3) ([0xC0].length + 1)
          = (3, [0xC0].length + 1 + variableLengthSize 3)
      ∧ readVariableLengthInt (createPackage [0xC0] 1 [5] 3)
            ([0xC0].length + 1 + variableLengthSize 3)
          = (([5] : List Nat).length,
             [0xC0].length + 1 + variableLengthSize 3 + variableLengthSize ([5] : List Nat).length)
      ∧ (createPackage [0xC0] 1 [5] 3).drop
            ([0xC0].length + 1 + variableLengthSize 3 + variableLengthSize ([5] : List Nat).length)
          = [5]
      ∧ (createPackage [0xC0] 1 [5] 3).length
          = [0xC0].length + 1 + variableLengthSize 3 + variableLengthSize ([5] : List Nat).length
            + ([5] : List Nat).length) :=
  ⟨⟨by norm_num, by norm_num⟩, C2_package_frame [0xC0] [5] 1 3 (by norm_num) (by norm_num)⟩

/-! ## Claim C4: stored chunks -/

/-- C4 counterexample: a chunk stored with codec id 255 is emitted as the
bare slice, with no frame at all — the output does not even start with
the marker bytes. -/
theorem C4_stored_chunk_counterexample :
    (processChunk (fun _ _ => none) (fun _ => true) [0xC0] [65, 66] 255).1 = [65, 66]
    ∧ ([65, 66] : List Nat).take [0xC0].length ≠ [0xC0] := by
  decide

/-- C4 (amended): when the chosen codec id is 255 or absent from the
registry, `_process_chunk` emits the raw slice with no package frame and
reports the chunk as raw. -/
theorem C4_stored_chunk_raw (compressFn : Nat → List Nat → Option (List Nat))
    (methodKnown : Nat → Bool) (markerAligned chunkData : List Nat) (methodId : Nat)
    (h : methodId = 255 ∨ methodKnown methodId = false) :
    processChunk compressFn methodKnown markerAligned chunkData methodId
      = (chunkData,
         { compressed := false, method_id := 255, original_size := chunkData.length,
           compressed_size := chunkData.length, overhead := 0, bytes_saved := 0 }) := by
  unfold processChunk
  rcases h with h | h
  · subst h; simp
  · simp [h]

/-- Witness for the amended C4 at a stored chunk. -/
theorem C4_stored_chunk_raw_witness :
    ((255 : Nat) = 255 ∨ (fun _ : Nat => true) 255 = false)
    ∧ processChunk (fun _ _ => none) (fun _ => true) [0xC0] [65, 66] 255
        = ([65, 66],
           { compressed := false, method_id := 255, original_size := ([65, 66] : List Nat).length,
             compressed_size := ([65, 66] : List Nat).length, overhead := 0, bytes_saved := 0 }) :=
  ⟨Or.inl rfl,
   C4_stored_chunk_raw (fun _ _ => none) (fun _ => true) [0xC0] [65, 66] 255 (Or.inl rfl)⟩

/-! ## Claim C3: marker handling during decompression -/

/-- Embeds `List.find?` over `range'` returns the first index satisfying the
predicate. -/
theorem find?_range'_first {p : Nat → Bool} {s n t : Nat} (h1 : s ≤ t) (h2 : t < s + n)
    (h3 : p t = true) (h4 : ∀ i, s ≤ i → i < t → p i = false) :
    (List.range' s n).find? p = some t := by
  induction n generalizing s with
  | zero => omega
  | succ k ih =>
    rw [List.range'_succ]
    rcases Nat.eq_or_lt_of_le h1 with he | hlt
    · rw [← he] at h3
      rw [List.find?_cons_of_pos _ h3, he]
    · rw [List.find?_cons_of_neg _ (by rw [h4 s (Nat.le_refl s) hlt]; exact Bool.false_ne_true)]
      exact ih hlt (by omega) (fun i hi1 hi2 => h4 i (by omega) hi2)

theorem findMarkerPosFrom_first (data markerAligned : List Nat) (pos q : Nat)
    (h1 : pos ≤ q) (h2 : q + markerAligned.length ≤ data.length)
    (h3 : (data.drop q).take markerAligned.length = markerAligned)
    (h4 : ∀ i, pos ≤ i → i < q → (data.drop i).take markerAligned.length ≠ markerAligned) :
    findMarkerPosFrom data markerAligned pos = some q := by
  unfold findMarkerPosFrom
  exact find?_range'_first h1 (by omega) (by simp [h3])
    (fun i hi1 hi2 => by simp [h4 i hi1 hi2])

/-- One decoding step ending at an end package: everything between `pos`
and the marker is appended as raw data, then the loop stops. -/
theorem adaptiveDecompressLoop_end (o : Nat → List Nat → Nat → Option (List Nat))
    (markerAligned data acc : List Nat) (pos q : Nat)
    (hpos : pos < data.length)
    (hfind : findMarkerPosFrom data markerAligned pos = some q)
    (hlen : q + markerAligned.length < data.length)
    (hend : data.getD (q + markerAligned.length) 0 = 0) :
    adaptiveDecompressLoop o markerAligned data pos acc
      = acc ++ (data.drop pos).take (q - pos) := by
  rw [adaptiveDecompressLoop]
  rw [dif_pos hpos]
  split
  · simp_all
  · rename_i q2 hq2
    have hq : q2 = q := by
      rw [hfind] at hq2
      exact Option.some.inj hq2.symm
    subst hq
    rw [if_neg (by omega)]
    rw [hend]
    rw [if_pos rfl]

/-- C3 counterexample: the stream `[0x41, 0xC0, 0x00]` does not begin with
the marker `[0xC0]`, yet the decoder raises nothing: it resynchronizes at
index 1 and returns the preceding byte as data. -/
theorem C3_marker_mismatch_counterexample :
    adaptiveDecompress (fun _ _ _ => none) [0xC0] [0x41, 0xC0, 0x00] 1 = [0x41]
    ∧ ([0x41, 0xC0, 0x00] : List Nat).take ([0xC0] : List Nat).length ≠ [0xC0] := by
  constructor
  · unfold adaptiveDecompress
    rw [adaptiveDecompressLoop_end (fun _ _ _ => none) [0xC0] [0x41, 0xC0, 0x00] [] 0 1
      (by norm_num) (by decide) (by norm_num) (by decide)]
    decide
  · decide

/-- C3 (amended): the decoder does not require chunks to start at the
current position: it scans forward to the next occurrence of the aligned
marker bytes, appends the intervening bytes to the output as raw data,
and raises no error. -/
theorem C3_decoder_resynchronizes (o : Nat → List Nat → Nat → Option (List Nat))
    (markerAligned r : List Nat) (hm : 1 ≤ markerAligned.length)
    (hfirst : ∀ i, i < r.length →
      (((r ++ markerAligned ++ [0]).drop i).take markerAligned.length) ≠ markerAligned) :
    adaptiveDecompress o markerAligned (r ++ markerAligned ++ [0]) r.length = r := by
  have hslen : (r ++ markerAligned ++ [0]).length = r.length + markerAligned.length + 1 := by
    simp
    omega
  have hocc : ((r ++ markerAligned ++ [0]).drop r.length).take markerAligned.length
      = markerAligned := by
    rw [List.append_assoc, List.drop_left,
      List.take_append_of_le_length (Nat.le_refl _), List.take_length]
  have hend : (r ++ markerAligned ++ [0]).getD (r.length + markerAligned.length) 0 = 0 := by
    have h := getD_middle (r ++ markerAligned) [0] [] 0 (by simp)
    simp only [List.append_nil, List.length_append] at h
    simpa using h
  have hfind : findMarkerPosFrom (r ++ markerAligned ++ [0]) markerAligned 0 = some r.length :=
    findMarkerPosFrom_first _ _ _ _ (Nat.zero_le _) (by omega) hocc
      (fun i hi1 hi2 => hfirst i hi2)
  unfold adaptiveDecompress
  rw [adaptiveDecompressLoop_end o markerAligned _ [] 0 r.length (by omega) hfind (by omega) hend]
  simp

/-- Witness for the amended C3. -/
theorem C3_decoder_resynchronizes_witness :
    (1 ≤ ([0xC0] : List Nat).length
      ∧ ∀ i, i < ([0x41] : List Nat).length →
          ((([0x41] ++ [0xC0] ++ [0]).drop i).take ([0xC0] : List Nat).length) ≠ [0xC0])
    ∧ adaptiveDecompress (fun _ _ _ => none) [0xC0] ([0x41] ++ [0xC0] ++ [0])
        ([0x41] : List Nat).length = [0x41] :=
  ⟨⟨by decide, by decide⟩,
   C3_decoder_resynchronizes (fun _ _ _ => none) [0xC0] [0x41] (by decide) (by decide)⟩

/-! ## Claim C6: header round-trip -/

/-- Normal form of `_create_header`: the header-size field written at
offset 5 is the total header length. -/
theorem createHeader_eq (m c : List Nat) (L osz : Nat) :
    createHeader m L c osz
      = [0x41, 0x4D, 0x42, 0x43, 2] ++ u32le (27 + m.length + c.length)
        ++ [L] ++ m ++ [1] ++ c ++ u64le osz ++ [0, 0, 0, 0, 0, 0, 0, 0] := by
  unfold createHeader setSlice MAGIC_NUMBER FORMAT_VERSION
  dsimp only
  have hl : ([0x41, 0x4D, 0x42, 0x43] ++ [2] ++ [0, 0, 0, 0] ++ [L] ++ m ++ [1] ++ c
      ++ u64le osz ++ [0, 0, 0, 0, 0, 0, 0, 0] : List Nat).length
      = 27 + m.length + c.length := by
    simp [u64le]
    omega
  rw [hl]
  have hl4 : 5 + (u32le (27 + m.length + c.length)).length = 9 := rfl
  rw [hl4]
  simp [List.take_succ_cons, List.drop_succ_cons]

/-- Normal form of the header after `_update_header_compressed_size`. -/
theorem updateHeader_createHeader (m c : List Nat) (L osz csz : Nat) (hc : c.length = 16) :
    updateHeaderCompressedSize (createHeader m L c osz) csz
      = [0x41, 0x4D, 0x42, 0x43, 2] ++ u32le (43 + m.length)
        ++ [L] ++ m ++ [1] ++ c ++ u64le osz ++ u64le csz := by
  rw [createHeader_eq]
  unfold updateHeaderCompressedSize
  have h27 : 27 + m.length + c.length = 43 + m.length := by omega
  rw [h27]
  have hA : ([0x41, 0x4D, 0x42, 0x43, 2] ++ u32le (43 + m.length)
      ++ [L] ++ m ++ [1] ++ c ++ u64le osz ++ ([0, 0, 0, 0, 0, 0, 0, 0] : List Nat))
      = ([0x41, 0x4D, 0x42, 0x43, 2] ++ u32le (43 + m.length)
        ++ [L] ++ m ++ [1] ++ c ++ u64le osz) ++ ([0, 0, 0, 0, 0, 0, 0, 0] : List Nat) := by
    simp [List.append_assoc]
  rw [hA]
  have hlen : (([0x41, 0x4D, 0x42, 0x43, 2] ++ u32le (43 + m.length)
      ++ [L] ++ m ++ [1] ++ c ++ u64le osz) ++ ([0, 0, 0, 0, 0, 0, 0, 0] : List Nat)).length - 8
      = ([0x41, 0x4D, 0x42, 0x43, 2] ++ u32le (43 + m.length)
        ++ [L] ++ m ++ [1] ++ c ++ u64le osz).length := by
    simp only [List.length_append, List.length_cons, List.length_nil, u32le, u64le]
    omega
  rw [hlen, List.take_append_of_le_length (Nat.le_refl _), List.take_length]

theorem readU32le_u32le (pre suf : List Nat) (n : Nat) (h : n < 2 ^ 32) :
    readU32le (pre ++ u32le n ++ suf) pre.length = n := by
  have g : ∀ k, k < 4 → (pre ++ u32le n ++ suf).getD (pre.length + k) 0 = (u32le n).getD k 0 :=
    fun k hk => getD_middle pre (u32le n) suf k (by simp [u32le]; omega)
  have g0 := g 0 (by norm_num)
  have g1 := g 1 (by norm_num)
  have g2 := g 2 (by norm_num)
  have g3 := g 3 (by norm_num)
  unfold readU32le
  rw [show pre.length + 0 = pre.length from rfl] at g0
  rw [g0, g1, g2, g3]
  simp only [u32le, List.getD_cons_zero, List.getD_cons_succ]
  omega

/-- Embeds `struct.unpack` round-trip for the `u64le` header fields. -/
theorem readU64le_u64le (pre suf : List Nat) (n : Nat) (h : n < 2 ^ 64) :
    readU64le (pre ++ u64le n ++ suf) pre.length = n := by
  have g : ∀ k, k < 8 → (pre ++ u64le n ++ suf).getD (pre.length + k) 0 = (u64le n).getD k 0 :=
    fun k hk => getD_middle pre (u64le n) suf k (by simp [u64le]; omega)
  have g0 := g 0 (by norm_num)
  have g1 := g 1 (by norm_num)
  have g2 := g 2 (by norm_num)
  have g3 := g 3 (by norm_num)
  have g4 := g 4 (by norm_num)
  have g5 := g 5 (by norm_num)
  have g6 := g 6 (by norm_num)
  have g7 := g 7 (by norm_num)
  unfold readU64le
  rw [show pre.length + 0 = pre.length from rfl] at g0
  rw [g0, g1, g2, g3, g4, g5, g6, g7]
  simp only [u64le, List.getD_cons_zero, List.getD_cons_succ]
  omega

theorem C6_header_roundtrip (m c rest : List Nat) (L osz : Nat)
    (hm : m.length = (L + 7) / 8) (hL : L < 256) (hc : c.length = 16)
    (hosz : osz < 2 ^ 64) (hrest : rest.length < 2 ^ 64) :
    parseHeader (updateHeaderCompressedSize (createHeader m L c osz) rest.length ++ rest)
      = Except.ok
          { format_version := FORMAT_VERSION, header_size := (createHeader m L c osz).length,
            marker_length := L, marker_bytes := m, checksum_type := 1, checksum := c,
            original_size := osz, compressed_size := rest.length }
    ∧ (createHeader m L c osz).length = 43 + m.length := by
  have hHlen : (createHeader m L c osz).length = 43 + m.length := by
    rw [createHeader_eq]
    simp [u32le, u64le]
    omega
  have hmb : (L + 7) / 8 = m.length := hm.symm
  have hmlen32 : m.length ≤ 32 := by omega
  refine ⟨?_, hHlen⟩
  rw [updateHeader_createHeader m c L osz rest.length hc, hHlen]
  -- facts about the archive byte string
  have f4 : (([0x41, 0x4D, 0x42, 0x43, 2] ++ u32le (43 + m.length)
      ++ [L] ++ m ++ [1] ++ c ++ u64le osz ++ u64le rest.length) ++ rest).getD 4 0 = 2 := by
    have e : (([0x41, 0x4D, 0x42, 0x43, 2] ++ u32le (43 + m.length)
        ++ [L] ++ m ++ [1] ++ c ++ u64le osz ++ u64le rest.length) ++ rest)
        = [0x41, 0x4D, 0x42, 0x43] ++ [2]
          ++ (u32le (43 + m.length) ++ ([L] ++ (m ++ ([1] ++ (c
              ++ (u64le osz ++ (u64le rest.length ++ rest))))))) := by
      simp [List.append_assoc]
    rw [e]
    have h := getD_middle [0x41, 0x4D, 0x42, 0x43] [2]
      (u32le (43 + m.length) ++ ([L] ++ (m ++ ([1] ++ (c
          ++ (u64le osz ++ (u64le rest.length ++ rest))))))) 0 (by simp)
    simpa using h
  have fmagic : (([0x41, 0x4D, 0x42, 0x43, 2] ++ u32le (43 + m.length)
      ++ [L] ++ m ++ [1] ++ c ++ u64le osz ++ u64le rest.length) ++ rest).take 4
      = MAGIC_NUMBER := by
    have e : (([0x41, 0x4D, 0x42, 0x43, 2] ++ u32le (43 + m.length)
        ++ [L] ++ m ++ [1] ++ c ++ u64le osz ++ u64le rest.length) ++ rest)
        = [0x41, 0x4D, 0x42, 0x43] ++ ([2]
          ++ (u32le (43 + m.length) ++ ([L] ++ (m ++ ([1] ++ (c
              ++ (u64le osz ++ (u64le rest.length ++ rest)))))))) := by
      simp [List.append_assoc]
    rw [e]
    rw [show (4 : Nat) = ([0x41, 0x4D, 0x42, 0x43] : List Nat).length from rfl,
      List.take_append_of_le_length (Nat.le_refl _), List.take_length]
    rfl
  have fhdr : readU32le (([0x41, 0x4D, 0x42, 0x43, 2] ++ u32le (43 + m.length)
      ++ [L] ++ m ++ [1] ++ c ++ u64le osz ++ u64le rest.length) ++ rest) 5
      = 43 + m.length := by
    have e : (([0x41, 0x4D, 0x42, 0x43, 2] ++ u32le (43 + m.length)
        ++ [L] ++ m ++ [1] ++ c ++ u64le osz ++ u64le rest.length) ++ rest)
        = [0x41, 0x4D, 0x42, 0x43, 2] ++ u32le (43 + m.length)
          ++ ([L] ++ (m ++ ([1] ++ (c ++ (u64le osz ++ (u64le rest.length ++ rest)))))) := by
      simp [List.append_assoc]
    rw [e]
    have h := readU32le_u32le [0x41, 0x4D, 0x42, 0x43, 2]
      ([L] ++ (m ++ ([1] ++ (c ++ (u64le osz ++ (u64le rest.length ++ rest))))))
      (43 + m.length) (by omega)
    simpa using h
  have f9 : (([0x41, 0x4D, 0x42, 0x43, 2] ++ u32le (43 + m.length)
      ++ [L] ++ m ++ [1] ++ c ++ u64le osz ++ u64le rest.length) ++ rest).getD 9 0 = L := by
    have e : (([0x41, 0x4D, 0x42, 0x43, 2] ++ u32le (43 + m.length)
        ++ [L] ++ m ++ [1] ++ c ++ u64le osz ++ u64le rest.length) ++ rest)
        = ([0x41, 0x4D, 0x42, 0x43, 2] ++ u32le (43 + m.length)) ++ [L]
          ++ (m ++ ([1] ++ (c ++ (u64le osz ++ (u64le rest.length ++ rest))))) := by
      simp [List.append_assoc]
    rw [e]
    have h := getD_middle ([0x41, 0x4D, 0x42, 0x43, 2] ++ u32le (43 + m.length)) [L]
      (m ++ ([1] ++ (c ++ (u64le osz ++ (u64le rest.length ++ rest))))) 0 (by simp)
    have hp : ([0x41, 0x4D, 0x42, 0x43, 2] ++ u32le (43 + m.length) : List Nat).length = 9 := by
      simp [u32le]
    rw [hp] at h
    simpa using h
  have fmb : ((([0x41, 0x4D, 0x42, 0x43, 2] ++ u32le (43 + m.length)
      ++ [L] ++ m ++ [1] ++ c ++ u64le osz ++ u64le rest.length) ++ rest).drop 10).take m.length
      = m := by
    have e : (([0x41, 0x4D, 0x42, 0x43, 2] ++ u32le (43 + m.length)
        ++ [L] ++ m ++ [1] ++ c ++ u64le osz ++ u64le rest.length) ++ rest)
        = ([0x41, 0x4D, 0x42, 0x43, 2] ++ u32le (43 + m.length) ++ [L])
          ++ (m ++ ([1] ++ (c ++ (u64le osz ++ (u64le rest.length ++ rest))))) := by
      simp [List.append_assoc]
    rw [e]
    have hp : ([0x41, 0x4D, 0x42, 0x43, 2] ++ u32le (43 + m.length) ++ [L] : List Nat).length
        = 10 := by simp [u32le]
    rw [show (10 : Nat) = ([0x41, 0x4D, 0x42, 0x43, 2] ++ u32le (43 + m.length)
      ++ [L] : List Nat).length from hp.symm, List.drop_left,
      List.take_append_of_le_length (Nat.le_refl _), List.take_length]
  have fct : (([0x41, 0x4D, 0x42, 0x43, 2] ++ u32le (43 + m.length)
      ++ [L] ++ m ++ [1] ++ c ++ u64le osz ++ u64le rest.length) ++ rest).getD
      (10 + m.length) 0 = 1 := by
    have e : (([0x41, 0x4D, 0x42, 0x43, 2] ++ u32le (43 + m.length)
        ++ [L] ++ m ++ [1] ++ c ++ u64le osz ++ u64le rest.length) ++ rest)
        = ([0x41, 0x4D, 0x42, 0x43, 2] ++ u32le (43 + m.length) ++ [L] ++ m) ++ [1]
          ++ (c ++ (u64le osz ++ (u64le rest.length ++ rest))) := by
      simp [List.append_assoc]
    rw [e]
    have h := getD_middle ([0x41, 0x4D, 0x42, 0x43, 2] ++ u32le (43 + m.length) ++ [L] ++ m)
      [1] (c ++ (u64le osz ++ (u64le rest.length ++ rest))) 0 (by simp)
    have hp : ([0x41, 0x4D, 0x42, 0x43, 2] ++ u32le (43 + m.length) ++ [L]
        ++ m : List Nat).length = 10 + m.length := by
      simp [u32le]
      omega
    rw [hp] at h
    simpa using h
  have fcs : ((([0x41, 0x4D, 0x42, 0x43, 2] ++ u32le (43 + m.length)
      ++ [L] ++ m ++ [1] ++ c ++ u64le osz ++ u64le rest.length) ++ rest).drop
      (11 + m.length)).take 16 = c := by
    have e : (([0x41, 0x4D, 0x42, 0x43, 2] ++ u32le (43 + m.length)
        ++ [L] ++ m ++ [1] ++ c ++ u64le osz ++ u64le rest.length) ++ rest)
        = ([0x41, 0x4D, 0x42, 0x43, 2] ++ u32le (43 + m.length) ++ [L] ++ m ++ [1])
          ++ (c ++ (u64le osz ++ (u64le rest.length ++ rest))) := by
      simp [List.append_assoc]
    rw [e]
    have hp : ([0x41, 0x4D, 0x42, 0x43, 2] ++ u32le (43 + m.length) ++ [L] ++ m
        ++ [1] : List Nat).length = 11 + m.length := by
      simp [u32le]
      omega
    rw [show 11 + m.length = ([0x41, 0x4D, 0x42, 0x43, 2] ++ u32le (43 + m.length) ++ [L] ++ m
      ++ [1] : List Nat).length from hp.symm, List.drop_left]
    rw [show (16 : Nat) = c.length from hc.symm,
      List.take_append_of_le_length (Nat.le_refl _), List.take_length]
  have fosz : readU64le (([0x41, 0x4D, 0x42, 0x43, 2] ++ u32le (43 + m.length)
      ++ [L] ++ m ++ [1] ++ c ++ u64le osz ++ u64le rest.length) ++ rest)
      (11 + m.length + 16) = osz := by
    have e : (([0x41, 0x4D, 0x42, 0x43, 2] ++ u32le (43 + m.length)
        ++ [L] ++ m ++ [1] ++ c ++ u64le osz ++ u64le rest.length) ++ rest)
        = ([0x41, 0x4D, 0x42, 0x43, 2] ++ u32le (43 + m.length) ++ [L] ++ m ++ [1] ++ c)
          ++ u64le osz ++ (u64le rest.length ++ rest) := by
      simp [List.append_assoc]
    rw [e]
    have h := readU64le_u64le ([0x41, 0x4D, 0x42, 0x43, 2] ++ u32le (43 + m.length)
      ++ [L] ++ m ++ [1] ++ c) (u64le rest.length ++ rest) osz hosz
    have hp : ([0x41, 0x4D, 0x42, 0x43, 2] ++ u32le (43 + m.length) ++ [L] ++ m ++ [1]
        ++ c : List Nat).length = 11 + m.length + 16 := by
      simp [u32le, hc]
      omega
    rw [hp] at h
    exact h
  have fcsz : readU64le (([0x41, 0x4D, 0x42, 0x43, 2] ++ u32le (43 + m.length)
      ++ [L] ++ m ++ [1] ++ c ++ u64le osz ++ u64le rest.length) ++ rest)
      (11 + m.length + 16 + 8) = rest.length := by
    have e : (([0x41, 0x4D, 0x42, 0x43, 2] ++ u32le (43 + m.length)
        ++ [L] ++ m ++ [1] ++ c ++ u64le osz ++ u64le rest.length) ++ rest)
        = ([0x41, 0x4D, 0x42, 0x43, 2] ++ u32le (43 + m.length) ++ [L] ++ m ++ [1] ++ c
          ++ u64le osz) ++ u64le rest.length ++ rest := by
      simp [List.append_assoc]
    rw [e]
    have h := readU64le_u64le ([0x41, 0x4D, 0x42, 0x43, 2] ++ u32le (43 + m.length)
      ++ [L] ++ m ++ [1] ++ c ++ u64le osz) rest rest.length hrest
    have hp : ([0x41, 0x4D, 0x42, 0x43, 2] ++ u32le (43 + m.length) ++ [L] ++ m ++ [1] ++ c
        ++ u64le osz : List Nat).length = 11 + m.length + 16 + 8 := by
      simp [u32le, u64le, hc]
      omega
    rw [hp] at h
    exact h
  unfold parseHeader
  rw [if_neg (by rw [fmagic]; exact fun hne => hne rfl)]
  rw [if_neg (by rw [f4]; unfold FORMAT_VERSION; omega)]
  have h16 : (if (((1 : Nat) == 1) = true) then (16 : Nat) else 0) = 16 := by simp
  simp only [f4, f9, hmb, fhdr, fmb, fct, h16, fcs, fosz, fcsz, FORMAT_VERSION]

/-- Witness for C6 at a concrete marker, checksum and chunk stream. -/
theorem C6_header_roundtrip_witness :
    (([0] : List Nat).length = (1 + 7) / 8 ∧ (1 : Nat) < 256
      ∧ (List.replicate 16 1 : List Nat).length = 16
      ∧ (5 : Nat) < 2 ^ 64 ∧ ([9, 9, 9] : List Nat).length < 2 ^ 64)
    ∧ (parseHeader (updateHeaderCompressedSize (createHeader [0] 1 (List.replicate 16 1) 5)
          ([9, 9, 9] : List Nat).length ++ [9, 9, 9])
        = Except.ok
            { format_version := FORMAT_VERSION,
              header_size := (createHeader [0] 1 (List.replicate 16 1) 5).length,
              marker_length := 1, marker_bytes := [0], checksum_type := 1,
              checksum := List.replicate 16 1, original_size := 5,
              compressed_size := ([9, 9, 9] : List Nat).length }
      ∧ (createHeader [0] 1 (List.replicate 16 1) 5).length = 43 + ([0] : List Nat).length) :=
  ⟨⟨by decide, by decide, by decide, by norm_num, by norm_num⟩,
   C6_header_roundtrip [0] (List.replicate 16 1) [9, 9, 9] 1 5
     (by decide) (by decide) (by decide) (by norm_num) (by norm_num)⟩

/-! ## Claim C5: checksum mismatch and output exposure -/

/-- C5 (amended): when the recomputed digest differs from the header
digest, `decompress` raises the checksum error — but only after the
decompressed bytes were already written to the output file, so the
(possibly corrupt) output is exposed. -/
theorem C5_checksum_error_after_write (md5 : List Nat → List Nat)
    (o : Nat → List Nat → Nat → Option (List Nat)) (archive : List Nat) (hi : HeaderInfo)
    (hparse : parseHeader archive = Except.ok hi)
    (hmism : md5 (adaptiveDecompress o (initMarkerAligned hi.marker_bytes hi.marker_length)
        (archive.drop hi.header_size) hi.original_size) ≠ hi.checksum) :
    decompressFile md5 o archive
      = (some (adaptiveDecompress o (initMarkerAligned hi.marker_bytes hi.marker_length)
          (archive.drop hi.header_size) hi.original_size),
         Except.error DecompressError.checksumMismatch) := by
  unfold decompressFile
  rw [hparse]
  dsimp only
  rw [if_pos hmism]

/-- Evaluation of the decompression in the concrete C5 archive. -/
theorem c5_archive_decompress_eval :
    adaptiveDecompress (fun _ _ _ => none) [0]
      ((updateHeaderCompressedSize (createHeader [0] 1 (List.replicate 16 1) 1) 3
        ++ [0x41, 0x00, 0x00]).drop 44) 1 = [0x41] := by
  have hdrop : (updateHeaderCompressedSize (createHeader [0] 1 (List.replicate 16 1) 1) 3
      ++ [0x41, 0x00, 0x00]).drop 44 = [0x41, 0x00, 0x00] := by decide
  rw [hdrop]
  unfold adaptiveDecompress
  rw [adaptiveDecompressLoop_end (fun _ _ _ => none) [0] [0x41, 0x00, 0x00] [] 0 1
    (by norm_num) (by decide) (by norm_num) (by decide)]
  decide

/-- C5 counterexample: a concrete archive whose header digest does not
match.  `decompress` raises the checksum error, yet the output file has
already been written with the decompressed bytes — partial output is
exposed. -/
theorem C5_checksum_partial_output_counterexample :
    decompressFile (fun _ => List.replicate 16 0) (fun _ _ _ => none)
        (updateHeaderCompressedSize (createHeader [0] 1 (List.replicate 16 1) 1) 3
          ++ [0x41, 0x00, 0x00])
      = (some [0x41], Except.error DecompressError.checksumMismatch)
    ∧ (some [0x41] : Option (List Nat)) ≠ none := by
  have hparse : parseHeader (updateHeaderCompressedSize
      (createHeader [0] 1 (List.replicate 16 1) 1) 3 ++ [0x41, 0x00, 0x00])
      = Except.ok
          { format_version := 2
            header_size := 44
            marker_length := 1
            marker_bytes := [0]
            checksum_type := 1
            checksum := List.replicate 16 1
            original_size := 1
            compressed_size := 3 } := by rfl
  constructor
  · unfold decompressFile
    rw [hparse]
    dsimp only
    have hma : initMarkerAligned [0] 1 = [0] := rfl
    rw [hma, c5_archive_decompress_eval]
    rw [if_pos (by decide)]
  · decide

/-- Witness for the amended C5 at the same concrete archive. -/
theorem C5_checksum_error_after_write_witness :
    (parseHeader (updateHeaderCompressedSize (createHeader [0] 1 (List.replicate 16 1) 1) 3
        ++ [0x41, 0x00, 0x00])
      = Except.ok
          { format_version := 2
            header_size := 44
            marker_length := 1
            marker_bytes := [0]
            checksum_type := 1
            checksum := List.replicate 16 1
            original_size := 1
            compressed_size := 3 }
      ∧ (fun _ : List Nat => List.replicate 16 0)
          (adaptiveDecompress (fun _ _ _ => none) (initMarkerAligned [0] 1)
            ((updateHeaderCompressedSize (createHeader [0] 1 (List.replicate 16 1) 1) 3
              ++ [0x41, 0x00, 0x00]).drop 44) 1)
          ≠ (List.replicate 16 1 : List Nat))
    ∧ decompressFile (fun _ : List Nat => List.replicate 16 0) (fun _ _ _ => none)
        (updateHeaderCompressedSize (createHeader [0] 1 (List.replicate 16 1) 1) 3
          ++ [0x41, 0x00, 0x00])
      = (some (adaptiveDecompress (fun _ _ _ => none) (initMarkerAligned [0] 1)
          ((updateHeaderCompressedSize (createHeader [0] 1 (List.replicate 16 1) 1) 3
            ++ [0x41, 0x00, 0x00]).drop 44) 1),
         Except.error DecompressError.checksumMismatch) :=
  ⟨⟨by rfl, by decide⟩,
   C5_checksum_error_after_write (fun _ : List Nat => List.replicate 16 0) (fun _ _ _ => none)
     (updateHeaderCompressedSize (createHeader [0] 1 (List.replicate 16 1) 1) 3
       ++ [0x41, 0x00, 0x00])
     { format_version := 2
       header_size := 44
       marker_length := 1
       marker_bytes := [0]
       checksum_type := 1
       checksum := List.replicate 16 1
       original_size := 1
       compressed_size := 3 }
     (by rfl) (by decide)⟩

/-! ## Claim C8: statistics identities -/

theorem planChunks_stop (determine : Nat → Nat × Nat) (totalLen pos : Nat)
    (h : ¬ pos < totalLen) :
    planChunks determine totalLen pos = [] := by
  rw [planChunks]
  rw [dif_neg h]

/-- C8 counterexample: compressing the empty input gives
`compressed_size_without_overhead = 0`, `overhead_bytes = 46` (header 44 +
end package 2) and `header_size = 44`, summing to 90, while the archive is
46 bytes: the claimed identity double-counts the header. -/
theorem C8_statistics_counterexample :
    ((compressFile (fun _ => List.replicate 16 0) (fun _ _ => none) (fun _ => false)
        (fun _ => (1, 255)) 10000 []).2.compressed_size_without_overhead
      + (compressFile (fun _ => List.replicate 16 0) (fun _ _ => none) (fun _ => false)
          (fun _ => (1, 255)) 10000 []).2.overhead_bytes
      + (compressFile (fun _ => List.replicate 16 0) (fun _ _ => none) (fun _ => false)
          (fun _ => (1, 255)) 10000 []).2.header_size = 90)
    ∧ (compressFile (fun _ => List.replicate 16 0) (fun _ _ => none) (fun _ => false)
        (fun _ => (1, 255)) 10000 []).1.length = 46
    ∧ (90 : Nat) ≠ 46 := by
  have hplan := planChunks_stop (fun _ => (1, 255)) 0 0 (by omega)
  unfold compressFile adaptiveCompress
  dsimp only [List.length_nil]
  rw [hplan]
  refine ⟨by decide, by decide, by decide⟩

theorem variableLengthSize_mono {a b : Nat} (h : a ≤ b) :
    variableLengthSize a ≤ variableLengthSize b := by
  unfold variableLengthSize
  split_ifs <;> omega

theorem createPackage_length (m d : List Nat) (t o : Nat) :
    (createPackage m t d o).length
      = m.length + 1 + variableLengthSize o + variableLengthSize d.length + d.length := by
  unfold createPackage
  rw [encodeVariableLength_eq_append, encodeVariableLength_eq_append]
  simp [length_encodeVariableLength_nil]
  omega

theorem processChunk_spec (cf : Nat → List Nat → Option (List Nat)) (kn : Nat → Bool)
    (marker chunk : List Nat) (mid : Nat) :
    ((processChunk cf kn marker chunk mid).2.compressed = false
      ∧ (processChunk cf kn marker chunk mid).1 = chunk)
    ∨ ((processChunk cf kn marker chunk mid).2.compressed = true
      ∧ kn (processChunk cf kn marker chunk mid).2.method_id = true
      ∧ (processChunk cf kn marker chunk mid).2.original_size = chunk.length
      ∧ (processChunk cf kn marker chunk mid).2.compressed_size < chunk.length
      ∧ (processChunk cf kn marker chunk mid).2.overhead
          = marker.length + 1 + 2 * variableLengthSize chunk.length
      ∧ (processChunk cf kn marker chunk mid).1.length
          = marker.length + 1 + variableLengthSize chunk.length
            + variableLengthSize (processChunk cf kn marker chunk mid).2.compressed_size
            + (processChunk cf kn marker chunk mid).2.compressed_size) := by
  unfold processChunk
  split
  · left; exact ⟨rfl, rfl⟩
  · rename_i hcond
    split
    · left; exact ⟨rfl, rfl⟩
    · rename_i cd hcf
      dsimp only
      split
      · rename_i hlt
        right
        dsimp only
        have hkn : kn mid = true := by
          simp only [Bool.or_eq_true, beq_iff_eq, Bool.not_eq_eq_eq_not, Bool.not_true] at hcond
          rcases Bool.eq_false_or_eq_true (kn mid) with ht | hf
          · exact ht
          · exact absurd (Or.inr hf) hcond
        unfold calculatePackageOverhead at hlt
        refine ⟨rfl, hkn, rfl, by omega, by unfold calculatePackageOverhead; omega, ?_⟩
        exact createPackage_length marker cd mid chunk.length
      · left; exact ⟨rfl, rfl⟩

theorem usageSum_update (registry : List Nat) (hnodup : registry.Nodup) (usage : Nat → Nat)
    (midv : Nat) (hmem : midv ∈ registry) :
    usageSum registry (fun id => if id = midv then usage id + 1 else usage id)
      = usageSum registry usage + 1 := by
  unfold usageSum
  induction registry with
  | nil => cases hmem
  | cons a t ih =>
    rcases List.mem_cons.1 hmem with he | ht
    · subst he
      have hnot : midv ∉ t := (List.nodup_cons.1 hnodup).1
      have hmap : t.map (fun id => if id = midv then usage id + 1 else usage id)
          = t.map usage := by
        apply List.map_congr_left
        intro x hx
        have hxne : x ≠ midv := by
          intro hxe
          subst hxe
          exact hnot hx
        exact if_neg hxne
      simp only [List.map_cons, List.sum_cons, hmap]
      rw [if_pos trivial]
      omega
    · have hne : a ≠ midv := by
        intro he
        exact (List.nodup_cons.1 hnodup).1 (he ▸ ht)
      simp only [List.map_cons, List.sum_cons]
      rw [if_neg hne, ih (List.nodup_cons.1 hnodup).2 ht]
      omega

/-- Statistics invariant of `_compress_chunks_sequential` over a plan. -/
theorem seq_stats_invariant (cf : Nat → List Nat → Option (List Nat)) (kn : Nat → Bool)
    (marker fileData registry : List Nat)
    (hnodup : registry.Nodup) (hkn : ∀ id, kn id = true → id ∈ registry) :
    ∀ (plan : List (Nat × Nat × Nat)) (acc : ChunkStatsAcc),
      ((compressChunksSequential cf kn marker fileData plan acc).2.compressed_size_without_overhead
          + (compressChunksSequential cf kn marker fileData plan acc).2.overhead_bytes
          + rawBytesTotal cf kn marker fileData plan
        = acc.compressed_size_without_overhead + acc.overhead_bytes
          + (((compressChunksSequential cf kn marker fileData plan acc).1.map List.length).sum)
          + overheadSlack cf kn marker fileData plan)
      ∧ (usageSum registry (compressChunksSequential cf kn marker fileData plan acc).2.method_usage
          + (compressChunksSequential cf kn marker fileData plan acc).2.raw_chunks
        = usageSum registry acc.method_usage + acc.raw_chunks + plan.length)
      ∧ (compressChunksSequential cf kn marker fileData plan acc).2.total_chunks
        = acc.total_chunks + plan.length := by
  intro plan
  induction plan with
  | nil =>
    intro acc
    refine ⟨?_, ?_, ?_⟩ <;>
      simp [compressChunksSequential, rawBytesTotal, overheadSlack]
  | cons hd rest ih =>
    intro acc
    obtain ⟨position, size, methodId⟩ := hd
    simp only [compressChunksSequential, rawBytesTotal, overheadSlack, List.length_cons]
    rcases processChunk_spec cf kn marker ((fileData.drop position).take size) methodId with
      ⟨hcF, hout⟩ | ⟨hcT, hknm, hosz, hlt, hov, hlen⟩
    · -- raw chunk
      have hupd : updateChunkStats acc
          (processChunk cf kn marker ((fileData.drop position).take size) methodId).2
          = { acc with total_chunks := acc.total_chunks + 1,
                       raw_chunks := acc.raw_chunks + 1 } := by
        unfold updateChunkStats
        rw [if_neg (by rw [hcF]; exact Bool.false_ne_true)]
      obtain ⟨ih1, ih2, ih3⟩ := ih (updateChunkStats acc
        (processChunk cf kn marker ((fileData.drop position).take size) methodId).2)
      rw [hupd] at ih1 ih2 ih3
      dsimp only at ih1 ih2 ih3
      rw [hcF, hupd]
      simp only [if_neg (Bool.false_ne_true), List.map_cons, List.sum_cons]
      refine ⟨by omega, by omega, by omega⟩
    · -- compressed chunk
      have hmem : (processChunk cf kn marker
          ((fileData.drop position).take size) methodId).2.method_id ∈ registry :=
        hkn _ hknm
      have hupd : updateChunkStats acc
          (processChunk cf kn marker ((fileData.drop position).take size) methodId).2
          = { acc with
              total_chunks := acc.total_chunks + 1
              compressed_chunks := acc.compressed_chunks + 1
              method_usage := fun id =>
                if id = (processChunk cf kn marker
                    ((fileData.drop position).take size) methodId).2.method_id then
                  acc.method_usage id + 1
                else acc.method_usage id
              compressed_size_without_overhead := acc.compressed_size_without_overhead
                + (processChunk cf kn marker
                    ((fileData.drop position).take size) methodId).2.compressed_size
              overhead_bytes := acc.overhead_bytes
                + (processChunk cf kn marker
                    ((fileData.drop position).take size) methodId).2.overhead
              bytes_saved := acc.bytes_saved
                + (processChunk cf kn marker
                    ((fileData.drop position).take size) methodId).2.bytes_saved } := by
        unfold updateChunkStats
        rw [if_pos hcT]
      obtain ⟨ih1, ih2, ih3⟩ := ih (updateChunkStats acc
        (processChunk cf kn marker ((fileData.drop position).take size) methodId).2)
      rw [hupd] at ih1 ih2 ih3
      dsimp only at ih1 ih2 ih3
      rw [usageSum_update registry hnodup acc.method_usage _ hmem] at ih2
      rw [hcT, hupd]
      simp only [if_pos trivial, List.map_cons, List.sum_cons]
      rw [hosz]
      have hmono : variableLengthSize (processChunk cf kn marker
          ((fileData.drop position).take size) methodId).2.compressed_size
          ≤ variableLengthSize ((fileData.drop position).take size).length :=
        variableLengthSize_mono (by omega)
      refine ⟨by omega, by omega, by omega⟩

theorem updateHeader_length (h : List Nat) (n : Nat) (hlen : 8 ≤ h.length) :
    (updateHeaderCompressedSize h n).length = h.length := by
  unfold updateHeaderCompressedSize u64le
  simp
  omega

theorem createHeader_length_ge (m c : List Nat) (L o : Nat) :
    8 ≤ (createHeader m L c o).length := by
  rw [createHeader_eq]
  simp
  omega

theorem C8_statistics_identity (md5 : List Nat → List Nat)
    (cf : Nat → List Nat → Option (List Nat)) (kn : Nat → Bool) (det : Nat → Nat × Nat)
    (sampleSize : Nat) (input registry : List Nat)
    (hnodup : registry.Nodup) (hkn : ∀ id, kn id = true → id ∈ registry) :
    ((compressFile md5 cf kn det sampleSize input).2.compressed_size_without_overhead
        + (compressFile md5 cf kn det sampleSize input).2.overhead_bytes
        + rawBytesTotal cf kn
            (initMarkerAligned (findMarker input sampleSize).1 (findMarker input sampleSize).2)
            input (planChunks det input.length 0)
      = (compressFile md5 cf kn det sampleSize input).1.length
        + overheadSlack cf kn
            (initMarkerAligned (findMarker input sampleSize).1 (findMarker input sampleSize).2)
            input (planChunks det input.length 0))
    ∧ (usageSum registry (compressFile md5 cf kn det sampleSize input).2.method_usage
        + (compressFile md5 cf kn det sampleSize input).2.raw_chunks
      = (compressFile md5 cf kn det sampleSize input).2.total_chunks) := by
  have husage0 : usageSum registry (fun _ : Nat => 0) = 0 := by
    unfold usageSum
    induction registry with
    | nil => rfl
    | cons a t ih => simpa using ih
  unfold compressFile adaptiveCompress initChunkStats
  dsimp only
  obtain ⟨h1, h2, h3⟩ := seq_stats_invariant cf kn
    (initMarkerAligned (findMarker input sampleSize).1 (findMarker input sampleSize).2)
    input registry hnodup hkn (planChunks det input.length 0)
    { total_chunks := 0, compressed_chunks := 0, raw_chunks := 0,
      method_usage := fun _ => 0, bytes_saved := 0, original_size := input.length,
      compressed_size_without_overhead := 0, overhead_bytes := 0, header_size := 0 }
  dsimp only at h1 h2 h3
  constructor
  · have harch : ((updateHeaderCompressedSize
        (createHeader (findMarker input sampleSize).1 (findMarker input sampleSize).2
          (md5 input) input.length)
        (((compressChunksSequential cf kn
          (initMarkerAligned (findMarker input sampleSize).1 (findMarker input sampleSize).2)
          input (planChunks det input.length 0)
          { total_chunks := 0, compressed_chunks := 0, raw_chunks := 0,
            method_usage := fun _ => 0, bytes_saved := 0, original_size := input.length,
            compressed_size_without_overhead := 0, overhead_bytes := 0,
            header_size := 0 }).1.flatten
          ++ createEndPackage (initMarkerAligned (findMarker input sampleSize).1
              (findMarker input sampleSize).2)).length))
      ++ ((compressChunksSequential cf kn
          (initMarkerAligned (findMarker input sampleSize).1 (findMarker input sampleSize).2)
          input (planChunks det input.length 0)
          { total_chunks := 0, compressed_chunks := 0, raw_chunks := 0,
            method_usage := fun _ => 0, bytes_saved := 0, original_size := input.length,
            compressed_size_without_overhead := 0, overhead_bytes := 0,
            header_size := 0 }).1.flatten
          ++ createEndPackage (initMarkerAligned (findMarker input sampleSize).1
              (findMarker input sampleSize).2))).length
      = (createHeader (findMarker input sampleSize).1 (findMarker input sampleSize).2
          (md5 input) input.length).length
        + (((compressChunksSequential cf kn
          (initMarkerAligned (findMarker input sampleSize).1 (findMarker input sampleSize).2)
          input (planChunks det input.length 0)
          { total_chunks := 0, compressed_chunks := 0, raw_chunks := 0,
            method_usage := fun _ => 0, bytes_saved := 0, original_size := input.length,
            compressed_size_without_overhead := 0, overhead_bytes := 0,
            header_size := 0 }).1.map List.length).sum
        + (createEndPackage (initMarkerAligned (findMarker input sampleSize).1
            (findMarker input sampleSize).2)).length) := by
      rw [List.length_append, updateHeader_length _ _ (createHeader_length_ge _ _ _ _)]
      simp [List.length_flatten]
    rw [harch]
    omega
  · omega

/-- Witness for the amended C8 on the empty input with the base registry. -/
theorem C8_statistics_identity_witness :
    (([1, 2, 3, 4, 255] : List Nat).Nodup
      ∧ (∀ id : Nat, (fun i : Nat => decide (i ∈ ([1, 2, 3, 4, 255] : List Nat))) id = true
          → id ∈ ([1, 2, 3, 4, 255] : List Nat)))
    ∧ (((compressFile (fun _ => List.replicate 16 0) (fun _ _ => none)
          (fun i : Nat => decide (i ∈ ([1, 2, 3, 4, 255] : List Nat))) (fun _ => (1, 255))
          10000 []).2.compressed_size_without_overhead
        + (compressFile (fun _ => List.replicate 16 0) (fun _ _ => none)
            (fun i : Nat => decide (i ∈ ([1, 2, 3, 4, 255] : List Nat))) (fun _ => (1, 255))
            10000 []).2.overhead_bytes
        + rawBytesTotal (fun _ _ => none)
            (fun i : Nat => decide (i ∈ ([1, 2, 3, 4, 255] : List Nat)))
            (initMarkerAligned (findMarker [] 10000).1 (findMarker [] 10000).2)
            [] (planChunks (fun _ => (1, 255)) ([] : List Nat).length 0)
      = (compressFile (fun _ => List.replicate 16 0) (fun _ _ => none)
          (fun i : Nat => decide (i ∈ ([1, 2, 3, 4, 255] : List Nat))) (fun _ => (1, 255))
          10000 []).1.length
        + overheadSlack (fun _ _ => none)
            (fun i : Nat => decide (i ∈ ([1, 2, 3, 4, 255] : List Nat)))
            (initMarkerAligned (findMarker [] 10000).1 (findMarker [] 10000).2)
            [] (planChunks (fun _ => (1, 255)) ([] : List Nat).length 0))
      ∧ (usageSum [1, 2, 3, 4, 255]
          (compressFile (fun _ => List.replicate 16 0) (fun _ _ => none)
            (fun i : Nat => decide (i ∈ ([1, 2, 3, 4, 255] : List Nat))) (fun _ => (1, 255))
            10000 []).2.method_usage
        + (compressFile (fun _ => List.replicate 16 0) (fun _ _ => none)
            (fun i : Nat => decide (i ∈ ([1, 2, 3, 4, 255] : List Nat))) (fun _ => (1, 255))
            10000 []).2.raw_chunks
      = (compressFile (fun _ => List.replicate 16 0) (fun _ _ => none)
          (fun i : Nat => decide (i ∈ ([1, 2, 3, 4, 255] : List Nat))) (fun _ => (1, 255))
          10000 []).2.total_chunks)) :=
  ⟨⟨by decide, fun id h => of_decide_eq_true h⟩,
   C8_statistics_identity (fun _ => List.replicate 16 0) (fun _ _ => none)
     (fun i : Nat => decide (i ∈ ([1, 2, 3, 4, 255] : List Nat))) (fun _ => (1, 255))
     10000 [] [1, 2, 3, 4, 255] (by decide) (fun id h => of_decide_eq_true h)⟩

/-! ## Claim C9: repetition score -/

/-- C9 counterexample: for the two-byte slice `[5, 5]` the profiler
returns 0 (its `len(data) < 4` guard), while the claimed formula gives
`1 / (2 - 1) = 1`. -/
theorem C9_repetition_score_counterexample :
    calculateRepetitionScore [5, 5] = 0
    ∧ (adjacentEqualCount [5, 5] : ℚ) / ((([5, 5] : List Nat).length : ℚ) - 1) = 1
    ∧ (0 : ℚ) ≠ 1 := by
  have h : adjacentEqualCount [5, 5] = 1 := by decide
  refine ⟨by decide, by rw [h]; norm_num, by norm_num⟩

theorem repeatsCount_eq_adjacentEqualCount (b : List Nat) :
    repeatsCount b = adjacentEqualCount b := by
  induction b with
  | nil => rfl
  | cons a t ih =>
    cases t with
    | nil => rfl
    | cons c t2 =>
      unfold repeatsCount adjacentEqualCount at ih ⊢
      simp only [List.length_cons, Nat.add_sub_cancel, List.range_succ_eq_map,
        List.countP_cons, List.countP_map, List.tail_cons, List.zip_cons_cons]
      simp only [List.length_cons, Nat.add_sub_cancel] at ih
      have hcomp : ∀ i : Nat,
          ((a :: c :: t2).getD (Nat.succ i) 0 == (a :: c :: t2).getD (Nat.succ i + 1) 0)
            = ((c :: t2).getD i 0 == (c :: t2).getD (i + 1) 0) := by
        intro i
        simp [List.getD_cons_succ]
      simp only [Function.comp_def, hcomp]
      rw [ih]
      simp [Nat.add_comm]

/-- C9 (amended): for slices of 4 to 1000 bytes the repetition score is
the number of adjacent equal pairs divided by `length - 1`; for fewer
than 4 bytes (including the empty slice) it is 0. -/
theorem C9_repetition_score (b : List Nat) (h4 : 4 ≤ b.length) (h1000 : b.length ≤ 1000) :
    calculateRepetitionScore b = (adjacentEqualCount b : ℚ) / ((b.length : ℚ) - 1) := by
  unfold calculateRepetitionScore
  rw [if_neg (by omega)]
  simp only [if_neg (show ¬ b.length > 1000 by omega)]
  rw [repeatsCount_eq_adjacentEqualCount]

/-- Witness for the amended C9 on a 4-byte slice. -/
theorem C9_repetition_score_witness :
    (4 ≤ ([7, 7, 7, 9] : List Nat).length ∧ ([7, 7, 7, 9] : List Nat).length ≤ 1000)
    ∧ calculateRepetitionScore [7, 7, 7, 9]
        = (adjacentEqualCount [7, 7, 7, 9] : ℚ) / ((([7, 7, 7, 9] : List Nat).length : ℚ) - 1) :=
  ⟨by decide, C9_repetition_score [7, 7, 7, 9] (by decide) (by decide)⟩

/-! ## Claim C7, amended part: marker absence without sampling

Bit-stream lemmas connecting the window search of `_find_marker` to byte
substrings of the input. -/

theorem bitsOfBytes_cons (a : Nat) (t : List Nat) :
    bitsOfBytes (a :: t) = byteBits a ++ bitsOfBytes t := by
  simp [bitsOfBytes]

theorem bitsOfBytes_append (x y : List Nat) :
    bitsOfBytes (x ++ y) = bitsOfBytes x ++ bitsOfBytes y := by
  simp [bitsOfBytes]

theorem length_byteBits (b : Nat) : (byteBits b).length = 8 := by
  simp [byteBits]

theorem length_bitsOfBytes (data : List Nat) : (bitsOfBytes data).length = 8 * data.length := by
  induction data with
  | nil => rfl
  | cons a t ih =>
    rw [bitsOfBytes_cons, List.length_append, length_byteBits, ih]
    simp
    omega

theorem testBit_div_pow (x n i : Nat) : (x / 2 ^ n).testBit i = x.testBit (n + i) := by
  rw [Nat.testBit_to_div_mod, Nat.testBit_to_div_mod, Nat.div_div_eq_div_mul, ← Nat.pow_add]

theorem bitsVal_append_single (xs : List Bool) (b : Bool) :
    bitsVal (xs ++ [b]) = 2 * bitsVal xs + (if b then 1 else 0) := by
  unfold bitsVal
  rw [List.foldl_append]
  rfl

theorem bitsVal_testBits : ∀ (L v : Nat), v < 2 ^ L →
    bitsVal ((List.range L).map (fun k => v.testBit (L - 1 - k))) = v := by
  intro L
  induction L with
  | zero =>
    intro v hv
    have : v = 0 := by omega
    subst this
    rfl
  | succ n ih =>
    intro v hv
    rw [List.range_succ, List.map_append]
    simp only [Nat.add_sub_cancel, List.map_cons, List.map_nil]
    rw [bitsVal_append_single]
    have hmap : (List.range n).map (fun k => v.testBit (n - k))
        = (List.range n).map (fun k => (v / 2).testBit (n - 1 - k)) := by
      apply List.map_congr_left
      intro k hk
      have hk2 : k < n := List.mem_range.1 hk
      rw [Nat.testBit_div_two]
      have he : n - 1 - k + 1 = n - k := by omega
      rw [he]
    have hpow : 2 ^ (n + 1) = 2 ^ n * 2 := Nat.pow_succ 2 n
    rw [hmap, ih (v / 2) (by omega)]
    rw [Nat.sub_self]
    have hbit : (if v.testBit 0 then 1 else 0) = v % 2 := by
      rw [Nat.testBit_zero]
      rcases Nat.mod_two_eq_zero_or_one v with h | h <;> simp [h]
    rw [hbit]
    omega

theorem take_range_map {α : Type} (f : Nat → α) (L n : Nat) (h : L ≤ n) :
    ((List.range n).map f).take L = (List.range L).map f := by
  have he : n = L + (n - L) := by omega
  rw [he, List.range_add, List.map_append,
    List.take_append_of_le_length (by simp),
    List.take_of_length_le (by simp)]

theorem bitsOfBytes_aligned_take (v L : Nat) (hv : v < 2 ^ L) (hL1 : 1 ≤ L) (hL : L ≤ 16) :
    (bitsOfBytes (alignedMarkerBytes v L)).take L
      = (List.range L).map (fun k => v.testBit (L - 1 - k)) := by
  unfold alignedMarkerBytes
  by_cases h8 : L ≤ 8
  · rw [if_pos h8]
    have hb : bitsOfBytes [v * 2 ^ (8 - L)] = byteBits (v * 2 ^ (8 - L)) := by
      rw [bitsOfBytes_cons]
      simp [bitsOfBytes]
    rw [hb]
    unfold byteBits
    rw [take_range_map _ L 8 h8]
    apply List.map_congr_left
    intro k hk
    have hk2 : k < L := List.mem_range.1 hk
    rw [Nat.mul_comm, Nat.testBit_mul_pow_two]
    have hge : 7 - k ≥ 8 - L := by omega
    have hidx : 7 - k - (8 - L) = L - 1 - k := by omega
    simp [hge, hidx]
  · rw [if_neg h8]
    have hVlt : v * 2 ^ (16 - L) < 2 ^ 16 := by
      have he : 2 ^ L * 2 ^ (16 - L) = 2 ^ 16 := by
        rw [← Nat.pow_add]
        congr 1
        omega
      calc v * 2 ^ (16 - L) < 2 ^ L * 2 ^ (16 - L) :=
            (Nat.mul_lt_mul_right (Nat.pos_pow_of_pos _ (by norm_num))).2 hv
        _ = 2 ^ 16 := he
    have hsplit : bitsOfBytes [v * 2 ^ (16 - L) / 256, v * 2 ^ (16 - L) % 256]
        = (List.range 16).map (fun k => (v * 2 ^ (16 - L)).testBit (15 - k)) := by
      rw [bitsOfBytes_cons, bitsOfBytes_cons]
      simp only [bitsOfBytes, List.map_nil, List.flatten_nil, List.append_nil]
      rw [show (16 : Nat) = 8 + 8 from rfl, List.range_add, List.map_append, List.map_map]
      congr 1
      · unfold byteBits
        apply List.map_congr_left
        intro k hk
        have hk2 : k < 8 := List.mem_range.1 hk
        rw [show (256 : Nat) = 2 ^ 8 from rfl, testBit_div_pow]
        congr 1
        omega
      · unfold byteBits
        apply List.map_congr_left
        intro k hk
        have hk2 : k < 8 := List.mem_range.1 hk
        simp only [Function.comp_def]
        rw [show (256 : Nat) = 2 ^ 8 from rfl, Nat.testBit_mod_two_pow]
        have hlt : 7 - k < 8 := by omega
        have hidx : 15 - (8 + k) = 7 - k := by omega
        simp [hlt, hidx]
    rw [hsplit, take_range_map _ L 16 hL]
    apply List.map_congr_left
    intro k hk
    have hk2 : k < L := List.mem_range.1 hk
    rw [Nat.mul_comm, Nat.testBit_mul_pow_two]
    have hge : 15 - k ≥ 16 - L := by omega
    have hidx : 15 - k - (16 - L) = L - 1 - k := by omega
    simp [hge, hidx]

theorem window_mem_seen (L : Nat) (bits : List Bool) (i : Nat) (hL : 1 ≤ L)
    (hi : i + L ≤ bits.length) :
    bitsVal ((bits.drop i).take L) ∈ seenPatterns L bits := by
  unfold seenPatterns
  apply List.mem_map_of_mem
  apply List.mem_range.2
  unfold windowCount
  rw [if_pos (by omega)]
  omega

theorem alignedMarkerBytes_length (v L : Nat) :
    (alignedMarkerBytes v L).length = if L ≤ 8 then 1 else 2 := by
  unfold alignedMarkerBytes
  split <;> simp

theorem tryLengths_spec : ∀ (Ls : List Nat) (bits : List Bool) (m : List Nat) (L : Nat),
    tryLengths Ls bits = some (m, L) →
    L ∈ Ls ∧ ∃ v, v < 2 ^ L ∧ v ∉ seenPatterns L bits ∧ m = alignedMarkerBytes v L := by
  intro Ls
  induction Ls with
  | nil => intro bits m L h; simp [tryLengths] at h
  | cons a t ih =>
    intro bits m L h
    unfold tryLengths at h
    cases hfm : findMissing a bits with
    | some v =>
      rw [hfm] at h
      have hm : alignedMarkerBytes v a = m ∧ a = L := by
        have := Option.some.inj h
        exact ⟨congrArg Prod.fst this, congrArg Prod.snd this⟩
      obtain ⟨hm1, hm2⟩ := hm
      subst hm2
      refine ⟨List.mem_cons_self a t, v, ?_, ?_, hm1.symm⟩
      · have hmem := List.mem_of_find?_eq_some hfm
        exact List.mem_range.1 hmem
      · have hp := List.find?_some hfm
        exact of_decide_eq_true hp
    | none =>
      rw [hfm] at h
      obtain ⟨hmem, hv⟩ := ih bits m L h
      exact ⟨List.mem_cons_of_mem a hmem, hv⟩

theorem findMarker_spec (input : List Nat) (s : Nat) (m : List Nat) (L : Nat)
    (hns : input.length ≤ s)
    (h : findMarker input s = (m, L)) (hL : L < 32) :
    1 ≤ L ∧ L ≤ 16
    ∧ ∃ v, v < 2 ^ L ∧ v ∉ seenPatterns L (bitsOfBytes input) ∧ m = alignedMarkerBytes v L := by
  unfold findMarker at h
  have hsample : sampleData input s = input := by
    unfold sampleData
    rw [if_neg (by omega)]
  rw [hsample] at h
  cases htl : tryLengths (List.range' 1 16) (bitsOfBytes input) with
  | none =>
    rw [htl] at h
    simp at h
    obtain ⟨h1, h2⟩ := h
    omega
  | some r =>
    rw [htl] at h
    simp at h
    obtain ⟨hmem, hv⟩ := tryLengths_spec (List.range' 1 16) (bitsOfBytes input) m L (by rw [htl, h])
    rw [List.mem_range'] at hmem
    obtain ⟨i, hi, he⟩ := hmem
    exact ⟨by omega, by omega, hv⟩

/-- C7 (amended): when the input is not sampled (length at most the sample
size) and the finder returns a marker of bit-length `L < 32`, the aligned
marker bytes do not occur as a substring of the input. -/
theorem C7_marker_absence_unsampled (input m : List Nat) (L s : Nat)
    (hns : input.length ≤ s)
    (hfm : findMarker input s = (m, L)) (hL : L < 32) :
    occursInBytes m input = false := by
  obtain ⟨hL1, hL16, v, hv, hvnotin, hma⟩ := findMarker_spec input s m L hns hfm hL
  cases hoc : occursInBytes m input with
  | false => rfl
  | true =>
    exfalso
    unfold occursInBytes at hoc
    rw [List.any_eq_true] at hoc
    obtain ⟨i, hi_mem, hslice⟩ := hoc
    rw [beq_iff_eq] at hslice
    have hmlen : m.length = if L ≤ 8 then 1 else 2 := by
      rw [hma]
      exact alignedMarkerBytes_length v L
    have hmlen1 : 1 ≤ m.length := by
      rw [hmlen]; split <;> omega
    have hmlen2 : m.length ≤ 2 := by
      rw [hmlen]; split <;> omega
    have hLm : L ≤ 8 * m.length := by
      rw [hmlen]
      split <;> omega
    have hfit : i + m.length ≤ input.length := by
      have hlt := congrArg List.length hslice
      rw [List.length_take, List.length_drop] at hlt
      omega
    -- decompose the input at the occurrence
    have hdecomp : input = input.take i ++ (m ++ input.drop (i + m.length)) := by
      conv_lhs => rw [← List.take_append_drop i input]
      congr 1
      conv_lhs => rw [← List.take_append_drop m.length (input.drop i)]
      rw [hslice, List.drop_drop]
    have htakei : (input.take i).length = i := by
      rw [List.length_take]
      omega
    -- the bit window at position 8 * i is the marker pattern
    have hbits : bitsOfBytes input
        = bitsOfBytes (input.take i) ++ (bitsOfBytes m ++ bitsOfBytes (input.drop (i + m.length))) := by
      conv_lhs => rw [hdecomp]
      rw [bitsOfBytes_append, bitsOfBytes_append]
    have hdrop : (bitsOfBytes input).drop (8 * i)
        = bitsOfBytes m ++ bitsOfBytes (input.drop (i + m.length)) := by
      rw [hbits]
      exact List.drop_left' (by rw [length_bitsOfBytes, htakei])
    have hwin : ((bitsOfBytes input).drop (8 * i)).take L
        = (List.range L).map (fun k => v.testBit (L - 1 - k)) := by
      rw [hdrop, List.take_append_of_le_length (by rw [length_bitsOfBytes]; omega)]
      rw [hma]
      exact bitsOfBytes_aligned_take v L hv hL1 hL16
    have hval : bitsVal (((bitsOfBytes input).drop (8 * i)).take L) = v := by
      rw [hwin]
      exact bitsVal_testBits L v hv
    have hmem : bitsVal (((bitsOfBytes input).drop (8 * i)).take L)
        ∈ seenPatterns L (bitsOfBytes input) := by
      apply window_mem_seen L _ _ hL1
      rw [length_bitsOfBytes]
      omega
    rw [hval] at hmem
    exact hvnotin hmem

/-- Witness for the amended C7 on a one-byte input. -/
theorem C7_marker_absence_unsampled_witness :
    (([0x42] : List Nat).length ≤ 10000
      ∧ findMarker [0x42] 10000 = ([0xC0], 2) ∧ (2 : Nat) < 32)
    ∧ occursInBytes [0xC0] [0x42] = false :=
  ⟨⟨by decide, by decide, by decide⟩,
   C7_marker_absence_unsampled [0x42] [0xC0] 2 10000 (by decide) (by decide) (by decide)⟩

/-! ## Claim C7, counterexample part: marker absence under sampling -/

/-- C7 counterexample: on the four-byte input `[0, 128, 0, 0]` with sample
size 2, the strided sample is `[0, 0]`, so the finder returns the 1-bit
marker `1` with aligned byte `0x80 = 128` — which occurs in the original
input. -/
theorem C7_marker_absence_counterexample :
    findMarker [0, 128, 0, 0] 2 = ([128], 1)
    ∧ occursInBytes [128] [0, 128, 0, 0] = true
    ∧ (1 : Nat) < 32 := by
  decide

/-- Witness for C10 at `n = 3000000` (the four-byte range). -/
theorem C10_variable_length_roundtrip_witness :
    3000000 < 2 ^ 28
    ∧ ((encodeVariableLength [7] 3000000).length
        = [7].length
          + (if 3000000 < 128 then 1 else if 3000000 < 16384 then 2
             else if 3000000 < 2097152 then 3 else 4)
      ∧ readVariableLengthInt (encodeVariableLength [7] 3000000 ++ [9]) [7].length
        = (3000000, [7].length
              + (if 3000000 < 128 then 1 else if 3000000 < 16384 then 2
                 else if 3000000 < 2097152 then 3 else 4))) :=
  ⟨by norm_num, C10_variable_length_roundtrip [7] [9] 3000000 (by norm_num)⟩

end AdaptiveCompressor
